import Mathlib

/-!
Verification development for the Mython interpreter
(lexer in src/lexer.cpp / lexer.h, runtime in src/runtime.cpp,
evaluator in src/statement.cpp / statement.h).

The C++ code is shallowly embedded: the lexer becomes pure functions over
lists of characters (one list per line, mirroring the getline loop of the
Lexer constructor), and the evaluator becomes a fuel-indexed state-passing
interpreter over an explicit heap of class instances and scopes.
-/

namespace Mython

/-! ## Token model (lexer.h, namespace token_type) -/

/-- Embeds parse::Token: one constructor per alternative of TokenBase.
Valued kinds carry their payload; keyword and structural kinds carry none. -/
inductive Token where
  | number (value : Int)
  | id (value : String)
  | char (value : Char)
  | string (value : String)
  | kwClass
  | kwReturn
  | kwIf
  | kwElse
  | kwDef
  | newline
  | print
  | indent
  | dedent
  | kwAnd
  | kwOr
  | kwNot
  | eq
  | notEq
  | lessOrEq
  | greaterOrEq
  | none
  | kwTrue
  | kwFalse
  | eof
deriving DecidableEq

/-- Membership in the operations_char_ map of lexer.h
(the eight single-character operator keys). -/
def isOperationChar (c : Char) : Bool :=
  c = '+' || c = '-' || c = '*' || c = '/' || c = '=' || c = '>' || c = '<' || c = '!'

/-- Membership in the chars_ map of lexer.h (structural punctuation). -/
def isCharsChar (c : Char) : Bool :=
  c = '(' || c = ')' || c = ':' || c = ',' || c = '.'

/-- The entries of the keywords_ map of lexer.h. -/
def keywordList : List (String × Token) :=
  [("class", Token.kwClass), ("return", Token.kwReturn), ("if", Token.kwIf),
   ("else", Token.kwElse), ("def", Token.kwDef), ("print", Token.print),
   ("or", Token.kwOr), ("None", Token.none), ("and", Token.kwAnd),
   ("not", Token.kwNot), ("True", Token.kwTrue), ("False", Token.kwFalse)]

/-- The keywords_ map lookup of lexer.h: keyword text to its token (keys are
distinct, so list search embeds the map faithfully). -/
def keywordToken (s : String) : Option Token :=
  (keywordList.find? (fun p => p.1 = s)).map Prod.snd

/-- The operations_char_ map of lexer.h: a lone operator character maps to a
Char token, except that the bare exclamation mark maps to the None token kind
(exactly as the source table does). -/
def operationCharToken (c : Char) : Token :=
  if c = '!' then Token.none else Token.char c

/-- The operations_ map of lexer.h, keyed here by the first character of the
two-character operator whose second character is the equals sign. -/
def twoCharOpToken (c : Char) : Token :=
  if c = '=' then Token.eq
  else if c = '!' then Token.notEq
  else if c = '<' then Token.lessOrEq
  else Token.greaterOrEq

/-- Lexer::ReadOperation (lexer.cpp): the first character c has already been
read; if c is one of = < > ! and the next character is an equals sign, the
two-character operator token is produced, otherwise the single-character one. -/
def readOperation (c : Char) (rest : List Char) : Token × List Char :=
  if c = '=' || c = '<' || c = '>' || c = '!' then
    match rest with
    | '=' :: rest2 => (twoCharOpToken c, rest2)
    | _ => (operationCharToken c, rest)
  else (operationCharToken c, rest)

/-- Escape mapping inside Lexer::ReadString: backslash-t is a tab,
backslash-n is a newline, any other escaped character stands for itself. -/
def escapedChar (c : Char) : Char :=
  if c = 't' then '\t' else if c = 'n' then '\n' else c

/-- Body loop of Lexer::ReadString (lexer.cpp), after the opening quote has
been consumed and recorded. A backslash at end of input is pushed literally
(the failed read leaves the backslash in the character variable); an
unterminated literal simply ends at end of line. -/
def readStringBody (quote : Char) : List Char → String → Token × List Char
  | [], acc => (Token.string acc, [])
  | '\\' :: rest, acc =>
    match rest with
    | [] => (Token.string (acc.push '\\'), [])
    | e :: rest2 => readStringBody quote rest2 (acc.push (escapedChar e))
  | c :: rest, acc =>
    if c = quote then (Token.string acc, rest)
    else readStringBody quote rest (acc.push c)

/-- Lexer::ReadNumber (lexer.cpp): an optional leading minus (dead in the
dispatch, which only enters on a digit), then the maximal digit run, parsed by
std::stoi; stoi fails on an empty run or on overflow of a 32-bit int. -/
def readNumber (cs : List Char) : Except String (List Token × List Char) :=
  let p := match cs with
    | '-' :: r => (true, r)
    | _ => (false, cs)
  let digits := p.2.takeWhile (fun c => c.isDigit)
  let rest := p.2.dropWhile (fun c => c.isDigit)
  if digits.isEmpty then Except.error "stoi"
  else
    let n : Nat := digits.foldl (fun a c => a * 10 + (c.toNat - 48)) 0
    if n > 2147483647 then Except.error "stoi"
    else
      Except.ok ((if p.1 then [Token.char '-'] else []) ++ [Token.number (Int.ofNat n)], rest)

/-- Final keyword lookup of Lexer::ReadId: keyword table hit emits the keyword
token, otherwise an Id token. -/
def finishId (acc : String) : Token :=
  match keywordToken acc with
  | some t => t
  | Option.none => Token.id acc

/-- Loop of Lexer::ReadId (lexer.cpp). A hash sign kills the rest of the line
(the source sets eofbit and failbit) and emits the pending identifier, if any,
as an Id token without keyword lookup; a space, structural character or
operator character ends the identifier and stays in the input. -/
def readIdAux : List Char → String → List Token × List Char
  | [], acc => ([finishId acc], [])
  | c :: rest, acc =>
    if c = '#' then
      ((if acc = "" then [] else [Token.id acc]), [])
    else if c = ' ' || isCharsChar c || isOperationChar c then
      ([finishId acc], c :: rest)
    else readIdAux rest (acc.push c)

/-- Tail of Lexer::ReadIndents after its scanning loop: compare the counted
pairs with the stored level and emit the difference in Indent or Dedent
tokens, updating the stored level. -/
def emitIndents (indent old : Nat) : List Token × Nat :=
  if indent > old then (List.replicate (indent - old) Token.indent, indent)
  else if indent < old then (List.replicate (old - indent) Token.dedent, indent)
  else ([], old)

/-- Lexer::ReadIndents (lexer.cpp). Leading spaces are consumed in pairs; on
a space followed by a non-space (an odd trailing space) the function returns
at once, emitting nothing and leaving the stored level unchanged; the same
happens when the line ends inside the space run (the failed read leaves a
space in the character variable, so the function takes the early return).
Only when the space run is even and followed by more input does the function
fall through to the emitting comparison. The constructor never calls this on
an empty line. -/
def readIndents : List Char → Nat → Nat → List Token × Nat × List Char
  | ' ' :: ' ' :: rest, old, acc => readIndents rest old (acc + 1)
  | ' ' :: rest, old, _acc => ([], old, rest)
  | [], old, _acc => ([], old, [])
  | cs, old, acc =>
    let e := emitIndents acc old
    (e.1, e.2, cs)

/-- One character token from the chars_ map (Lexer::ReadChar). -/
def charsCharToken (c : Char) : Token := Token.char c

/-- The per-line tokenising loop of the Lexer constructor (lexer.cpp,
while line read succeeds): skip spaces, dispatch on the character class to
ReadString, ReadOperation, ReadChar, ReadNumber or ReadId. The fuel argument
only bounds the loop; every dispatch consumes at least one character, so
line length plus one is always enough. -/
def tokenizeLine : Nat → List Char → Except String (List Token)
  | 0, [] => Except.ok []
  | 0, _ :: _ => Except.error "fuel"
  | _ + 1, [] => Except.ok []
  | fuel + 1, c :: rest =>
    if c = ' ' then tokenizeLine fuel rest
    else if c = '\'' || c = '\"' then
      let r := readStringBody c rest ""
      (tokenizeLine fuel r.2).map (fun ts => r.1 :: ts)
    else if isOperationChar c then
      let r := readOperation c rest
      (tokenizeLine fuel r.2).map (fun ts => r.1 :: ts)
    else if isCharsChar c then
      (tokenizeLine fuel rest).map (fun ts => charsCharToken c :: ts)
    else if c.isDigit then
      match readNumber (c :: rest) with
      | Except.error e => Except.error e
      | Except.ok (ts1, rest2) => (tokenizeLine fuel rest2).map (fun ts => ts1 ++ ts)
    else
      let r := readIdAux (c :: rest) ""
      (tokenizeLine fuel r.2).map (fun ts => r.1 ++ ts)

/-- One iteration of the line loop in the Lexer constructor: an empty line or
a line starting with a hash sign is skipped entirely; otherwise ReadIndents
runs, the rest of the line is tokenised, and a Newline is appended when the
whole token buffer accumulated so far is non-empty (the source tests the
member vector tokens_, not the tokens of the current line). -/
def lexLine (line : List Char) (acc : List Token) (old : Nat) :
    Except String (List Token × Nat) :=
  if line.isEmpty || line.head? = some '#' then Except.ok (acc, old)
  else
    let r := readIndents line old 0
    match tokenizeLine (r.2.2.length + 1) r.2.2 with
    | Except.error e => Except.error e
    | Except.ok lineToks =>
      let all := acc ++ r.1 ++ lineToks
      Except.ok ((if all.isEmpty then all else all ++ [Token.newline]), r.2.1)

/-- The line loop of the Lexer constructor over all input lines. -/
def lexLinesAux : List (List Char) → List Token → Nat → Except String (List Token × Nat)
  | [], acc, old => Except.ok (acc, old)
  | l :: ls, acc, old =>
    match lexLine l acc old with
    | Except.error e => Except.error e
    | Except.ok (acc2, old2) => lexLinesAux ls acc2 old2

/-- The Lexer constructor (lexer.cpp): process every line, then flush the
remaining indentation as Dedent tokens and append the single Eof token. -/
def lexLines (lines : List (List Char)) : Except String (List Token) :=
  match lexLinesAux lines [] 0 with
  | Except.error e => Except.error e
  | Except.ok (acc, old) =>
    Except.ok (acc ++ List.replicate old Token.dedent ++ [Token.eof])

/-- The Lexer constructor on a raw character stream: getline splits the input
at newline characters; a trailing newline yields a final empty line, which the
constructor skips anyway. -/
def lexString (input : String) : Except String (List Token) :=
  lexLines ((input.split (fun c => c = '\n')).map String.toList)

/-! ## Runtime value model (runtime.h / runtime.cpp)

Runtime objects live behind shared handles. The embedding identifies a class
value with its index into a fixed class table (classes are immutable after
construction and shared by borrow, so one table slot is one C++ Class object)
and a ClassInstance with its address into a heap list. An ObjectHolder is an
optional value: the empty holder is the absent None value. -/

/-- The object alternatives a non-empty runtime::ObjectHolder can reference:
Number, String, Bool, a Class (by table index) or a ClassInstance (by heap
address). -/
inductive Value where
  | vnum (n : Int)
  | vstr (s : String)
  | vbool (b : Bool)
  | vclass (c : Nat)
  | vinst (a : Nat)
deriving DecidableEq

/-- runtime::ObjectHolder: either empty (None) or a handle to a value. -/
abbrev OH := Option Value

/-- runtime::Closure, an unordered_map from names to holders, embedded as an
association list without duplicate keys (first binding wins on lookup,
in-place overwrite on update). -/
abbrev Closure := List (String × OH)

/-- Map lookup, as unordered_map find / at: some when the key is bound. -/
def closGet (c : Closure) (k : String) : Option OH :=
  match c.find? (fun p => p.1 = k) with
  | some p => some p.2
  | Option.none => Option.none

/-- Map write, as unordered_map operator square brackets followed by
assignment: overwrite the existing binding or append a new one. -/
def closSet (c : Closure) (k : String) (v : OH) : Closure :=
  match c with
  | [] => [(k, v)]
  | p :: rest => if p.1 = k then (k, v) :: rest else p :: closSet rest k v

/-- Comparison direction of the six Comparator functions a Comparison node
can be constructed with (runtime.cpp). -/
inductive Cmp where
  | eq
  | less
  | notEq
  | greater
  | lessOrEq
  | greaterOrEq
deriving DecidableEq

/-- The AST statement set of statement.h, one constructor per concrete class.
Print keeps the source layout of one class with a name field and an argument
vector (the name path is taken when the name is non-empty). NewInstance
carries the heap address of the single ClassInstance member the node owns,
which is built once when the node is constructed; the class of the instance
is read from that heap slot. -/
inductive Stmt where
  | numericConst (value : Int)
  | stringConst (value : String)
  | boolConst (value : Bool)
  | noneConst
  | variableValue (var_names : List String)
  | assignment (var_name : String) (var_value : Stmt)
  | fieldAssignment (object : List String) (field_name : String) (field_value : Stmt)
  | printStmt (name : String) (args : List Stmt)
  | stringify (arg : Stmt)
  | add (lhs rhs : Stmt)
  | sub (lhs rhs : Stmt)
  | mult (lhs rhs : Stmt)
  | div (lhs rhs : Stmt)
  | orStmt (lhs rhs : Stmt)
  | andStmt (lhs rhs : Stmt)
  | notStmt (arg : Stmt)
  | comparison (cmp : Cmp) (lhs rhs : Stmt)
  | ifElse (condition if_body : Stmt) (else_body : Option Stmt)
  | compound (stmts : List Stmt)
  | methodCall (object : Stmt) (method : String) (args : List Stmt)
  | newInstance (iaddr : Nat) (args : List Stmt)
  | classDefinition (cls : OH)
  | methodBody (body : Stmt)
  | returnStmt (statement : Stmt)

/-- runtime::Method: name, formal parameter names, owned body statement. -/
structure Method where
  name : String
  formal_params : List String
  body : Stmt

/-- runtime::Class: name, methods (a map built by insert, so the first method
of a given name wins), optional non-owning parent reference by table index. -/
structure ClassD where
  name : String
  methods : List Method
  parent : Option Nat

/-- The program class table. Classes are constructed in order and a parent is
always an already-live class, so a parent index is smaller than its child
index for every table the source can build. -/
abbrev ClassTable := List ClassD

/-- Method map lookup inside one class: the first method with the name. -/
def findMethod (ms : List Method) (name : String) : Option Method :=
  ms.find? (fun m => m.name = name)

/-- The parent-chain walk of runtime::Class::GetMethod: look in the own
method map, then recurse into the parent. The source walks raw parent
pointers; the embedding walks indices and cuts off a (dangling, unbuildable)
forward reference, so each step strictly decreases the index and the fuel
below never runs out when the walk starts with fuel ci + 1. -/
def getMethodF (ct : ClassTable) : Nat → Nat → String → Option Method
  | 0, _, _ => Option.none
  | fuel + 1, ci, name =>
    match ct[ci]? with
    | Option.none => Option.none
    | some cd =>
      match findMethod cd.methods name with
      | some m => some m
      | Option.none =>
        match cd.parent with
        | some p => if p < ci then getMethodF ct fuel p name else Option.none
        | Option.none => Option.none

/-- runtime::Class::GetMethod. -/
def getMethod (ct : ClassTable) (ci : Nat) (name : String) : Option Method :=
  getMethodF ct (ci + 1) ci name

/-- runtime::ClassInstance: a non-owning reference to its class and the field
store. -/
structure Inst where
  cls : Nat
  fields : Closure
deriving DecidableEq

/-- The mutable world the evaluator threads: the heap of class instances, the
store of method-call scopes (a C++ Closure reference stays aliased to its
store slot), and the text written to the Context output stream so far. -/
structure EvalState where
  insts : List Inst
  scopes : List Closure
  output : String
deriving DecidableEq

/-- A C++ Closure reference as the evaluator passes it: either a method-call
scope in the scope store, or the field store of an instance (the latter is
exactly what ClassInstance::Print passes to the body of a user __str__). -/
inductive ClosRef where
  | scope (i : Nat)
  | fieldsOf (a : Nat)
deriving DecidableEq

/-- Result of one evaluation: a normal value with the updated state, a thrown
C++ exception carrying its what() text and the state at the throw point,
undefined behaviour (null dereference; not an exception, nothing catches it),
or fuel exhaustion of the model. -/
inductive Res (α : Type) where
  | ok (v : α) (st : EvalState)
  | exn (msg : String) (st : EvalState)
  | crash
  | spin
deriving DecidableEq

/-- Write one field of the instance at the given address
(Fields() square-bracket write). A dangling address leaves the state alone;
the evaluator never reaches this function with one. -/
def setField (st : EvalState) (a : Nat) (k : String) (v : OH) : EvalState :=
  match st.insts[a]? with
  | some i => { st with insts := st.insts.set a { i with fields := closSet i.fields k v } }
  | Option.none => st

/-- Read a name through a closure reference. -/
def refGet (st : EvalState) (r : ClosRef) (k : String) : Option OH :=
  match r with
  | ClosRef.scope i =>
    match st.scopes[i]? with
    | some c => closGet c k
    | Option.none => Option.none
  | ClosRef.fieldsOf a =>
    match st.insts[a]? with
    | some i => closGet i.fields k
    | Option.none => Option.none

/-- Write a name through a closure reference: a scope write lands in the
scope store, a fields write lands in the instance heap. -/
def refSet (st : EvalState) (r : ClosRef) (k : String) (v : OH) : EvalState :=
  match r with
  | ClosRef.scope i =>
    match st.scopes[i]? with
    | some c => { st with scopes := st.scopes.set i (closSet c k v) }
    | Option.none => st
  | ClosRef.fieldsOf a => setField st a k v

/-- runtime::IsTrue: Bool gives its value, a String is true when non-empty,
a Number when non-zero, everything else (None, Class, ClassInstance) false. -/
def IsTrue (o : OH) : Bool :=
  match o with
  | some (Value.vbool b) => b
  | some (Value.vstr s) => s.length != 0
  | some (Value.vnum n) => n != 0
  | _ => false

/-- runtime::ClassInstance::HasMethod: the method exists on the class chain
and its formal parameter count matches. -/
def hasMethod (ct : ClassTable) (st : EvalState) (a : Nat) (m : String) (count : Nat) : Bool :=
  match st.insts[a]? with
  | some i =>
    match getMethod ct i.cls m with
    | some mm => mm.formal_params.length = count
    | Option.none => false
  | Option.none => false

/-- std::string operator less-than: bytewise lexicographic comparison. -/
def charsLt : List Char → List Char → Bool
  | [], [] => false
  | [], _ :: _ => true
  | _ :: _, [] => false
  | a :: as, b :: bs =>
    if a.toNat < b.toNat then true
    else if b.toNat < a.toNat then false
    else charsLt as bs

/-- Lexicographic string comparison as the C++ standard library performs it. -/
def strLt (a b : String) : Bool := charsLt a.toList b.toList

/-- The text the stream insertion of a raw Object pointer produces in
Stringify::Execute when the printed form was empty. The concrete address is
outside the embedding; a fixed representative hexadecimal rendering stands in
for it. The only property anything relies on is that the rendering of a
non-null pointer is never the empty string. -/
def ptrText : String := "0x55d2c0ffee10"

/-- The what() text of the out_of_range error thrown by unordered_map::at on
a missing key (implementation defined; a fixed representative). -/
def mapAtMsg : String := "_Map_base::at"

/-- The chain walk of VariableValue::Execute after the first name: each
further name reads a field of the current value as a ClassInstance (a null
TryAs result is dereferenced, so a non-instance value is undefined
behaviour); a missing field throws out_of_range from Fields().at, which this
time is not caught locally. The final Share dereferences the holder, so a
null holder is undefined behaviour as well. -/
def varChain (st : EvalState) : List String → OH → Res OH
  | [], obj =>
    match obj with
    | Option.none => Res.crash
    | some v => Res.ok (some v) st
  | n :: ns, obj =>
    match obj with
    | some (Value.vinst a) =>
      match st.insts[a]? with
      | some inst =>
        match closGet inst.fields n with
        | some v => varChain st ns v
        | Option.none => Res.exn mapAtMsg st
      | Option.none => Res.crash
    | _ => Res.crash

/-- Bind formal parameters to actual arguments in order, as the loop in
ClassInstance::Call does (a duplicate formal name keeps the last write). -/
def bindParams (c : Closure) : List String → List OH → Closure
  | [], _ => c
  | _, [] => c
  | f :: fs, v :: vs => bindParams (closSet c f v) fs vs

mutual

/-- Statement::Execute for every AST variant, one match row per concrete
Execute body in statement.cpp. Fuel only bounds the recursion depth of the
model; every branch mirrors the source, including its undefined-behaviour
points (crash) and thrown exceptions (exn with the what() text). Where C++17
sequencing fixes an order (the right side of an assignment before the left)
the model follows it. -/
def exec (ct : ClassTable) : Nat → Stmt → ClosRef → EvalState → Res OH
  | 0, _, _, _ => Res.spin
  | fuel + 1, s, ρ, st =>
    match s with
    | Stmt.numericConst v => Res.ok (some (Value.vnum v)) st
    | Stmt.stringConst v => Res.ok (some (Value.vstr v)) st
    | Stmt.boolConst v => Res.ok (some (Value.vbool v)) st
    | Stmt.noneConst => Res.ok Option.none st
    | Stmt.variableValue names =>
      match names with
      | [] => Res.crash
      | n0 :: rest =>
        match refGet st ρ n0 with
        | Option.none => Res.exn "execute error" st
        | some obj => varChain st rest obj
    | Stmt.assignment name rv =>
      match exec ct fuel rv ρ st with
      | Res.ok v st2 => Res.ok v (refSet st2 ρ name v)
      | r => r
    | Stmt.fieldAssignment objNames field rv =>
      match exec ct fuel rv ρ st with
      | Res.ok v st2 =>
        match exec ct fuel (Stmt.variableValue objNames) ρ st2 with
        | Res.ok o st3 =>
          match o with
          | some (Value.vinst a) => Res.ok v (setField st3 a field v)
          | _ => Res.crash
        | r => r
      | r => r
    | Stmt.printStmt name args =>
      if name = "" then
        if args.isEmpty then Res.ok Option.none { st with output := st.output ++ "\n" }
        else
          match printArgsLoop ct fuel args ρ st with
          | Res.ok _ st2 => Res.ok Option.none st2
          | Res.exn m s2 => Res.exn m s2
          | Res.crash => Res.crash
          | Res.spin => Res.spin
      else
        match refGet st ρ name with
        | Option.none => Res.exn mapAtMsg st
        | some obj =>
          match obj with
          | Option.none => Res.crash
          | some v =>
            match printVal ct fuel v st with
            | Res.ok t st2 => Res.ok Option.none { st2 with output := st2.output ++ t ++ "\n" }
            | Res.exn m s2 => Res.exn m s2
            | Res.crash => Res.crash
            | Res.spin => Res.spin
    | Stmt.stringify arg =>
      match exec ct fuel arg ρ st with
      | Res.ok v st2 =>
        match v with
        | Option.none => Res.ok (some (Value.vstr "None")) st2
        | some x =>
          match printVal ct fuel x st2 with
          | Res.ok t st3 =>
            if t = "" then Res.ok (some (Value.vstr ptrText)) st3
            else Res.ok (some (Value.vstr t)) st3
          | Res.exn m s2 => Res.exn m s2
          | Res.crash => Res.crash
          | Res.spin => Res.spin
      | r => r
    | Stmt.add l r =>
      match exec ct fuel l ρ st with
      | Res.ok lv st2 =>
        match exec ct fuel r ρ st2 with
        | Res.ok rv st3 =>
          match lv, rv with
          | some (Value.vnum a), some (Value.vnum b) =>
            Res.ok (some (Value.vnum (a + b))) st3
          | some (Value.vstr a), some (Value.vstr b) =>
            Res.ok (some (Value.vstr (a ++ b))) st3
          | some (Value.vinst a), rv2 =>
            if hasMethod ct st3 a "__add__" 1 then callMethod ct fuel a "__add__" [rv2] st3
            else Res.exn "Add Error" st3
          | _, _ => Res.exn "Add Error" st3
        | r2 => r2
      | r2 => r2
    | Stmt.sub l r =>
      match exec ct fuel l ρ st with
      | Res.ok lv st2 =>
        match exec ct fuel r ρ st2 with
        | Res.ok rv st3 =>
          match lv, rv with
          | some (Value.vnum a), some (Value.vnum b) =>
            Res.ok (some (Value.vnum (a - b))) st3
          | _, _ => Res.exn "Sub Error" st3
        | r2 => r2
      | r2 => r2
    | Stmt.mult l r =>
      match exec ct fuel l ρ st with
      | Res.ok lv st2 =>
        match exec ct fuel r ρ st2 with
        | Res.ok rv st3 =>
          match lv, rv with
          | some (Value.vnum a), some (Value.vnum b) =>
            Res.ok (some (Value.vnum (a * b))) st3
          | _, _ => Res.exn "Mult Error" st3
        | r2 => r2
      | r2 => r2
    | Stmt.div l r =>
      match exec ct fuel l ρ st with
      | Res.ok lv st2 =>
        match exec ct fuel r ρ st2 with
        | Res.ok rv st3 =>
          match lv, rv with
          | some (Value.vnum a), some (Value.vnum b) =>
            if b = 0 then Res.exn "Div by 0" st3
            else Res.ok (some (Value.vnum (Int.tdiv a b))) st3
          | _, _ => Res.exn "Div Error" st3
        | r2 => r2
      | r2 => r2
    | Stmt.orStmt l r =>
      match exec ct fuel l ρ st with
      | Res.ok lv st2 =>
        match exec ct fuel r ρ st2 with
        | Res.ok rv st3 =>
          match lv, rv with
          | some (Value.vbool lb), some (Value.vbool rb) =>
            if lb = false then Res.ok (some (Value.vbool (lb || rb))) st3
            else Res.ok (some (Value.vbool true)) st3
          | _, _ => Res.exn "Or Error" st3
        | r2 => r2
      | r2 => r2
    | Stmt.andStmt l r =>
      match exec ct fuel l ρ st with
      | Res.ok lv st2 =>
        match exec ct fuel r ρ st2 with
        | Res.ok rv st3 =>
          match lv, rv with
          | some (Value.vbool lb), some (Value.vbool rb) =>
            if lb = true then Res.ok (some (Value.vbool (lb && rb))) st3
            else Res.ok (some (Value.vbool false)) st3
          | _, _ => Res.exn "And Error" st3
        | r2 => r2
      | r2 => r2
    | Stmt.notStmt a =>
      match exec ct fuel a ρ st with
      | Res.ok lv st2 =>
        match lv with
        | some (Value.vbool b) =>
          if b = true then Res.ok (some (Value.vbool false)) st2
          else Res.ok (some (Value.vbool true)) st2
        | _ => Res.exn "Not Error" st2
      | r2 => r2
    | Stmt.comparison cmp l r =>
      match exec ct fuel l ρ st with
      | Res.ok lv st2 =>
        match exec ct fuel r ρ st2 with
        | Res.ok rv st3 =>
          match compareVals ct fuel cmp lv rv st3 with
          | Res.ok b st4 => Res.ok (some (Value.vbool b)) st4
          | Res.exn m s2 => Res.exn m s2
          | Res.crash => Res.crash
          | Res.spin => Res.spin
        | r2 => r2
      | r2 => r2
    | Stmt.ifElse cond tb eb =>
      match exec ct fuel cond ρ st with
      | Res.ok cv st2 =>
        match cv with
        | some (Value.vbool b) =>
          if b then exec ct fuel tb ρ st2
          else
            match eb with
            | some e => exec ct fuel e ρ st2
            | Option.none => Res.ok Option.none st2
        | _ => Res.crash
      | r2 => r2
    | Stmt.compound ss => execSeq ct fuel ss ρ st
    | Stmt.methodCall obj m args =>
      match execArgs ct fuel args ρ st with
      | Res.ok avs st2 =>
        match exec ct fuel obj ρ st2 with
        | Res.ok ov st3 =>
          match ov with
          | some (Value.vinst a) => callMethod ct fuel a m avs st3
          | _ => Res.crash
        | r2 => r2
      | Res.exn m2 s2 => Res.exn m2 s2
      | Res.crash => Res.crash
      | Res.spin => Res.spin
    | Stmt.newInstance iaddr args =>
      match execArgs ct fuel args ρ st with
      | Res.ok avs st2 =>
        if hasMethod ct st2 iaddr "__init__" avs.length then
          match callMethod ct fuel iaddr "__init__" avs st2 with
          | Res.ok _ st3 => Res.ok (some (Value.vinst iaddr)) st3
          | r => r
        else Res.ok (some (Value.vinst iaddr)) st2
      | Res.exn m2 s2 => Res.exn m2 s2
      | Res.crash => Res.crash
      | Res.spin => Res.spin
    | Stmt.classDefinition cls =>
      match cls with
      | some (Value.vclass c) =>
        match ct[c]? with
        | some cd =>
          Res.ok (some (Value.vclass c)) (refSet st ρ cd.name (some (Value.vclass c)))
        | Option.none => Res.crash
      | _ => Res.crash
    | Stmt.methodBody body =>
      match exec ct fuel body ρ st with
      | Res.ok _ st2 => Res.ok Option.none st2
      | Res.exn msg st2 => Res.ok (some (Value.vstr msg)) st2
      | Res.crash => Res.crash
      | Res.spin => Res.spin
    | Stmt.returnStmt s1 =>
      match exec ct fuel s1 ρ st with
      | Res.ok v st2 =>
        match v with
        | Option.none => Res.crash
        | some x =>
          match printVal ct fuel x st2 with
          | Res.ok t st3 => Res.exn t st3
          | Res.exn m s2 => Res.exn m s2
          | Res.crash => Res.crash
          | Res.spin => Res.spin
      | r => r

/-- The argument loops of MethodCall::Execute and NewInstance::Execute:
evaluate each argument expression left to right. -/
def execArgs (ct : ClassTable) : Nat → List Stmt → ClosRef → EvalState → Res (List OH)
  | 0, _, _, _ => Res.spin
  | _ + 1, [], _, st => Res.ok [] st
  | fuel + 1, a :: rest, ρ, st =>
    match exec ct fuel a ρ st with
    | Res.ok v st2 =>
      match execArgs ct fuel rest ρ st2 with
      | Res.ok vs st3 => Res.ok (v :: vs) st3
      | r => r
    | Res.exn m s2 => Res.exn m s2
    | Res.crash => Res.crash
    | Res.spin => Res.spin

/-- Compound::Execute: run the instructions in order, discard their values,
return None; an exception propagates at once. -/
def execSeq (ct : ClassTable) : Nat → List Stmt → ClosRef → EvalState → Res OH
  | 0, _, _, _ => Res.spin
  | _ + 1, [], _, st => Res.ok Option.none st
  | fuel + 1, s :: ss, ρ, st =>
    match exec ct fuel s ρ st with
    | Res.ok _ st2 => execSeq ct fuel ss ρ st2
    | r => r

/-- The argument loop of Print::Execute: evaluate, print the value (an empty
holder prints the literal None), write a space between items and a newline
after the last. -/
def printArgsLoop (ct : ClassTable) : Nat → List Stmt → ClosRef → EvalState → Res Unit
  | 0, _, _, _ => Res.spin
  | _ + 1, [], _, st => Res.ok () st
  | fuel + 1, a :: rest, ρ, st =>
    match exec ct fuel a ρ st with
    | Res.ok v st2 =>
      match v with
      | some x =>
        match printVal ct fuel x st2 with
        | Res.ok t st3 =>
          printArgsLoop ct fuel rest ρ
            { st3 with output := st3.output ++ t ++ (if rest.isEmpty then "\n" else " ") }
        | Res.exn m s2 => Res.exn m s2
        | Res.crash => Res.crash
        | Res.spin => Res.spin
      | Option.none =>
        printArgsLoop ct fuel rest ρ
          { st2 with output := st2.output ++ "None" ++ (if rest.isEmpty then "\n" else " ") }
    | Res.exn m s2 => Res.exn m s2
    | Res.crash => Res.crash
    | Res.spin => Res.spin

/-- runtime::ClassInstance::Call: look the method up on the class chain,
throw Not implemented when it is missing or the argument count differs from
the formal count, otherwise run the body in a fresh scope holding self and
the bound arguments. -/
def callMethod (ct : ClassTable) : Nat → Nat → String → List OH → EvalState → Res OH
  | 0, _, _, _, _ => Res.spin
  | fuel + 1, a, mname, avs, st =>
    match st.insts[a]? with
    | Option.none => Res.crash
    | some inst =>
      match getMethod ct inst.cls mname with
      | Option.none => Res.exn "Not implemented" st
      | some m =>
        if avs.length = m.formal_params.length then
          let clos := bindParams [("self", some (Value.vinst a))] m.formal_params avs
          exec ct fuel m.body (ClosRef.scope st.scopes.length)
            { st with scopes := st.scopes ++ [clos] }
        else Res.exn "Not implemented" st

/-- Object::Print for each value kind (runtime.cpp): a Number prints its
decimal text, a String its raw text, a Bool True or False, a Class the word
Class and its name. A ClassInstance (ClassInstance::Print) prints nothing
when its class chain has no __str__; otherwise it executes the __str__ body
directly against its own field store (no fresh scope, no argument-count
check) and prints the result, dereferencing it unconditionally. The function
returns the text written to the target stream; output written by the body to
the Context stream lands in the threaded state. -/
def printVal (ct : ClassTable) : Nat → Value → EvalState → Res String
  | 0, _, _ => Res.spin
  | fuel + 1, v, st =>
    match v with
    | Value.vnum n => Res.ok (toString n) st
    | Value.vstr s => Res.ok s st
    | Value.vbool b => Res.ok (if b then "True" else "False") st
    | Value.vclass c =>
      match ct[c]? with
      | some cd => Res.ok ("Class " ++ cd.name) st
      | Option.none => Res.crash
    | Value.vinst a =>
      match st.insts[a]? with
      | Option.none => Res.crash
      | some inst =>
        match getMethod ct inst.cls "__str__" with
        | Option.none => Res.ok "" st
        | some m =>
          match exec ct fuel m.body (ClosRef.fieldsOf a) st with
          | Res.ok r st2 =>
            match r with
            | Option.none => Res.crash
            | some rv => printVal ct fuel rv st2
          | Res.exn msg st2 => Res.exn msg st2
          | Res.crash => Res.crash
          | Res.spin => Res.spin

/-- runtime::Equal: direct comparison on matching Number, String or Bool;
two empty holders are equal; a ClassInstance on the left dispatches to its
user __eq__ and coerces the result with IsTrue; two handles to the same
object are equal (by the time that line runs, only two borrows of the same
Class value can still satisfy it); anything else throws. -/
def equalV (ct : ClassTable) : Nat → OH → OH → EvalState → Res Bool
  | 0, _, _, _ => Res.spin
  | fuel + 1, l, r, st =>
    match l, r with
    | some (Value.vnum a), some (Value.vnum b) => Res.ok (a == b) st
    | some (Value.vstr a), some (Value.vstr b) => Res.ok (a == b) st
    | some (Value.vbool a), some (Value.vbool b) => Res.ok (a == b) st
    | Option.none, Option.none => Res.ok true st
    | some (Value.vinst a), rv =>
      match callMethod ct fuel a "__eq__" [rv] st with
      | Res.ok v st2 => Res.ok (IsTrue v) st2
      | Res.exn m s2 => Res.exn m s2
      | Res.crash => Res.crash
      | Res.spin => Res.spin
    | some (Value.vclass a), some (Value.vclass b) =>
      if a = b then Res.ok true st
      else Res.exn "Cannot compare objects for equality" st
    | _, _ => Res.exn "Cannot compare objects for equality" st

/-- runtime::Less: direct comparison on matching Number, String or Bool; a
ClassInstance on the left dispatches to its user __lt__ coerced with IsTrue;
anything else throws. -/
def lessV (ct : ClassTable) : Nat → OH → OH → EvalState → Res Bool
  | 0, _, _, _ => Res.spin
  | fuel + 1, l, r, st =>
    match l, r with
    | some (Value.vnum a), some (Value.vnum b) => Res.ok (decide (a < b)) st
    | some (Value.vstr a), some (Value.vstr b) => Res.ok (strLt a b) st
    | some (Value.vbool a), some (Value.vbool b) => Res.ok (!a && b) st
    | some (Value.vinst a), rv =>
      match callMethod ct fuel a "__lt__" [rv] st with
      | Res.ok v st2 => Res.ok (IsTrue v) st2
      | Res.exn m s2 => Res.exn m s2
      | Res.crash => Res.crash
      | Res.spin => Res.spin
    | _, _ => Res.exn "Cannot compare objects for less" st

/-- runtime::NotEqual: the negation of Equal; an exception from Equal
propagates unchanged. -/
def notEqualV (ct : ClassTable) : Nat → OH → OH → EvalState → Res Bool
  | 0, _, _, _ => Res.spin
  | fuel + 1, l, r, st =>
    match equalV ct fuel l r st with
    | Res.ok b st2 => Res.ok (!b) st2
    | r2 => r2

/-- runtime::Greater: not Less and not Equal, with the built-in short
circuit (when Less holds, Equal is never consulted); an exception from
either primitive is caught and rethrown with the greater wording. -/
def greaterV (ct : ClassTable) : Nat → OH → OH → EvalState → Res Bool
  | 0, _, _, _ => Res.spin
  | fuel + 1, l, r, st =>
    match lessV ct fuel l r st with
    | Res.ok lb st2 =>
      if lb then Res.ok false st2
      else
        match equalV ct fuel l r st2 with
        | Res.ok eb st3 => Res.ok (!eb) st3
        | Res.exn _ s2 => Res.exn "Cannot compare objects for greater" s2
        | Res.crash => Res.crash
        | Res.spin => Res.spin
    | Res.exn _ s2 => Res.exn "Cannot compare objects for greater" s2
    | Res.crash => Res.crash
    | Res.spin => Res.spin

/-- runtime::LessOrEqual: Less first, and only when it is false, Equal. -/
def lessOrEqualV (ct : ClassTable) : Nat → OH → OH → EvalState → Res Bool
  | 0, _, _, _ => Res.spin
  | fuel + 1, l, r, st =>
    match lessV ct fuel l r st with
    | Res.ok lb st2 => if lb then Res.ok true st2 else equalV ct fuel l r st2
    | r2 => r2

/-- runtime::GreaterOrEqual: the negation of Less. -/
def greaterOrEqualV (ct : ClassTable) : Nat → OH → OH → EvalState → Res Bool
  | 0, _, _, _ => Res.spin
  | fuel + 1, l, r, st =>
    match lessV ct fuel l r st with
    | Res.ok lb st2 => if !lb then Res.ok true st2 else Res.ok false st2
    | r2 => r2

/-- Dispatch of a Comparison node to the comparator it was built with. -/
def compareVals (ct : ClassTable) : Nat → Cmp → OH → OH → EvalState → Res Bool
  | 0, _, _, _, _ => Res.spin
  | fuel + 1, c, l, r, st =>
    match c with
    | Cmp.eq => equalV ct fuel l r st
    | Cmp.less => lessV ct fuel l r st
    | Cmp.notEq => notEqualV ct fuel l r st
    | Cmp.greater => greaterV ct fuel l r st
    | Cmp.lessOrEq => lessOrEqualV ct fuel l r st
    | Cmp.greaterOrEq => greaterOrEqualV ct fuel l r st

end

/-! ## Construction, invariants and syntactic guards -/

/-- The field store the runtime::ClassInstance constructor builds: the single
binding of self to a non-owning handle to the instance itself (the instance
at heap address a). -/
def mkInstanceFields (a : Nat) : Closure := [("self", some (Value.vinst a))]

/-- The self invariant over an instance heap: every instance's field store
binds self to a handle that references that very instance. -/
def selfInvI (insts : List Inst) : Prop :=
  ∀ a i, insts[a]? = some i → closGet i.fields "self" = some (some (Value.vinst a))

/-- The self invariant of a whole evaluator state. -/
def selfInv (st : EvalState) : Prop := selfInvI st.insts

/-- The self invariant of the state carried by an evaluation result; a crash
or fuel exhaustion carries no state. -/
def resInv {α : Type} : Res α → Prop
  | Res.ok _ st => selfInv st
  | Res.exn _ st => selfInv st
  | Res.crash => True
  | Res.spin => True

mutual

/-- Syntactic guard: the statement contains no assignment whose target
variable is named self and no field assignment whose target field is named
self. Such writes are the evaluator operations that replace the self binding
of a field store. -/
def noSelfWrite : Stmt → Bool
  | Stmt.numericConst _ => true
  | Stmt.stringConst _ => true
  | Stmt.boolConst _ => true
  | Stmt.noneConst => true
  | Stmt.variableValue _ => true
  | Stmt.assignment v rv => (v != "self") && noSelfWrite rv
  | Stmt.fieldAssignment _ f rv => (f != "self") && noSelfWrite rv
  | Stmt.printStmt _ args => noSelfWriteL args
  | Stmt.stringify a => noSelfWrite a
  | Stmt.add l r => noSelfWrite l && noSelfWrite r
  | Stmt.sub l r => noSelfWrite l && noSelfWrite r
  | Stmt.mult l r => noSelfWrite l && noSelfWrite r
  | Stmt.div l r => noSelfWrite l && noSelfWrite r
  | Stmt.orStmt l r => noSelfWrite l && noSelfWrite r
  | Stmt.andStmt l r => noSelfWrite l && noSelfWrite r
  | Stmt.notStmt a => noSelfWrite a
  | Stmt.comparison _ l r => noSelfWrite l && noSelfWrite r
  | Stmt.ifElse c t e => noSelfWrite c && noSelfWrite t && noSelfWriteO e
  | Stmt.compound ss => noSelfWriteL ss
  | Stmt.methodCall o _ args => noSelfWrite o && noSelfWriteL args
  | Stmt.newInstance _ args => noSelfWriteL args
  | Stmt.classDefinition _ => true
  | Stmt.methodBody b => noSelfWrite b
  | Stmt.returnStmt s => noSelfWrite s

/-- The guard over an optional else branch. -/
def noSelfWriteO : Option Stmt → Bool
  | Option.none => true
  | some s => noSelfWrite s

/-- The guard over a statement list. -/
def noSelfWriteL : List Stmt → Bool
  | [] => true
  | s :: ss => noSelfWrite s && noSelfWriteL ss

end

/-- A method whose body never writes the name self. -/
def methodOK (m : Method) : Bool := noSelfWrite m.body

/-- A class none of whose method bodies writes self, and whose own name is
not self (a class definition statement writes the class name into the
current closure, which inside a __str__ body aliases a field store). -/
def classOK (cd : ClassD) : Bool := (cd.name != "self") && cd.methods.all methodOK

/-- A class table all of whose classes satisfy classOK. -/
def tableOK (ct : ClassTable) : Bool := ct.all classOK

/-! ## Concrete fixtures used by the theorems below -/

/-- An empty world with one empty global scope. -/
def st0 : EvalState := { insts := [], scopes := [[]], output := "" }

/-- A class table with one methodless class. -/
def ctC : ClassTable := [{ name := "C", methods := [], parent := Option.none }]

/-- A world holding the one ClassInstance member that a NewInstance node for
class C owns, built at node construction time, plus one empty global scope. -/
def stC : EvalState :=
  { insts := [{ cls := 0, fields := mkInstanceFields 0 }], scopes := [[]], output := "" }

/-- Two evaluations of the very same NewInstance node, each assigned to its
own variable. -/
def progC : Stmt := Stmt.compound
  [Stmt.assignment "a" (Stmt.newInstance 0 []),
   Stmt.assignment "b" (Stmt.newInstance 0 [])]

/-- A user __str__ body (wrapped in MethodBody as the parser does): it
assigns a fresh local named marker and returns the variable greeting. -/
def strBody : Stmt := Stmt.methodBody (Stmt.compound
  [Stmt.assignment "marker" (Stmt.numericConst 7),
   Stmt.returnStmt (Stmt.variableValue ["greeting"])])

/-- A __str__ method that declares two formal parameters. -/
def mStr : Method := { name := "__str__", formal_params := ["p1", "p2"], body := strBody }

/-- A class G that defines the two-parameter __str__ above. -/
def cdG : ClassD := { name := "G", methods := [mStr], parent := Option.none }

/-- The table holding class G. -/
def ctG : ClassTable := [cdG]

/-- An instance of G whose field store holds self and a field greeting. -/
def iG : Inst :=
  { cls := 0, fields := [("self", some (Value.vinst 0)), ("greeting", some (Value.vstr "hi"))] }

/-- A world holding the G instance and one empty global scope. -/
def stG : EvalState := { insts := [iG], scopes := [[]], output := "" }

/-- A world with one instance of the methodless class and a global scope
binding x to it. -/
def stX : EvalState :=
  { insts := [{ cls := 0, fields := mkInstanceFields 0 }],
    scopes := [[("x", some (Value.vinst 0))]], output := "" }

/-- A token the in-line tokenizer can emit: never one of the structural
Indent, Dedent or Eof tokens. -/
abbrev plainTok (t : Token) : Prop :=
  t ≠ Token.indent ∧ t ≠ Token.dedent ∧ t ≠ Token.eof

/-- The running invariant of the token buffer during lexing: Indent tokens
exceed Dedent tokens by exactly the stored indentation level, and no Eof has
been emitted yet. -/
def TokInv (acc : List Token) (old : Nat) : Prop :=
  acc.count Token.indent = acc.count Token.dedent + old ∧ acc.count Token.eof = 0

/-! ## Lexer lemmas: what the in-line tokenizer can emit -/

theorem plainTok_id (s : String) : plainTok (Token.id s) := ⟨by simp, by simp, by simp⟩

theorem plainTok_char (c : Char) : plainTok (Token.char c) := ⟨by simp, by simp, by simp⟩

theorem plainTok_string (s : String) : plainTok (Token.string s) := ⟨by simp, by simp, by simp⟩

theorem plainTok_number (n : Int) : plainTok (Token.number n) := ⟨by simp, by simp, by simp⟩

theorem keywordToken_plain (s : String) (t : Token) (h : keywordToken s = some t) :
    plainTok t := by
  unfold keywordToken at h
  cases hf : keywordList.find? (fun p => p.1 = s) with
  | none => rw [hf] at h; exact Option.noConfusion h
  | some p =>
    rw [hf] at h
    injection h with h2
    subst h2
    have hp := List.mem_of_find?_eq_some hf
    simp only [keywordList, List.mem_cons, List.not_mem_nil, or_false] at hp
    rcases hp with h|h|h|h|h|h|h|h|h|h|h|h <;> (subst h; decide)

theorem finishId_plain (s : String) : plainTok (finishId s) := by
  unfold finishId
  split
  · next t h => exact keywordToken_plain s t h
  · exact plainTok_id s

theorem readIdAux_plain (cs : List Char) (acc : String) :
    ∀ t ∈ (readIdAux cs acc).1, plainTok t := by
  induction cs generalizing acc with
  | nil =>
    intro t ht
    simp only [readIdAux, List.mem_singleton] at ht
    subst ht
    exact finishId_plain acc
  | cons c rest ih =>
    simp only [readIdAux]
    split_ifs with h1 h2 h3
    · intro t ht
      simp at ht
    · intro t ht
      simp only [List.mem_singleton] at ht
      subst ht
      exact plainTok_id acc
    · intro t ht
      simp only [List.mem_singleton] at ht
      subst ht
      exact finishId_plain acc
    · exact ih (acc.push c)

theorem readNumber_plain (cs : List Char) (ts : List Token) (rest : List Char)
    (h : readNumber cs = Except.ok (ts, rest)) :
    ∀ t ∈ ts, plainTok t := by
  intro t ht
  simp only [readNumber] at h
  split_ifs at h with h1 h2 h3
  · injection h with h4
    injection h4 with h5 h6
    subst h5
    rcases List.mem_append.mp ht with hm | hm
    · rw [List.mem_singleton] at hm
      subst hm
      exact plainTok_char '-'
    · rw [List.mem_singleton] at hm
      subst hm
      exact plainTok_number _
  · injection h with h4
    injection h4 with h5 h6
    subst h5
    rcases List.mem_append.mp ht with hm | hm
    · exact absurd hm (List.not_mem_nil t)
    · rw [List.mem_singleton] at hm
      subst hm
      exact plainTok_number _

theorem operationCharToken_plain (c : Char) : plainTok (operationCharToken c) := by
  unfold operationCharToken
  split_ifs
  · decide
  · exact plainTok_char c

theorem twoCharOpToken_plain (c : Char) : plainTok (twoCharOpToken c) := by
  unfold twoCharOpToken
  split_ifs <;> decide

theorem readOperation_plain (c : Char) (rest : List Char) :
    plainTok (readOperation c rest).1 := by
  unfold readOperation
  split_ifs with h
  · split
    · exact twoCharOpToken_plain c
    · exact operationCharToken_plain c
  · exact operationCharToken_plain c

theorem readStringBody_string (q : Char) (cs : List Char) (acc : String) :
    ∃ s, (readStringBody q cs acc).1 = Token.string s := by
  induction cs, acc using readStringBody.induct q with
  | case1 acc => exact ⟨acc, rfl⟩
  | case2 acc => exact ⟨acc.push '\\', by rw [readStringBody]⟩
  | case3 acc e rest2 ih => rw [readStringBody]; exact ih
  | case4 rest acc h => exact ⟨acc, by simp [readStringBody, h]⟩
  | case5 c rest acc h1 h2 ih => simpa [readStringBody, h1, h2] using ih

theorem tokenizeLine_plain (fuel : Nat) :
    ∀ (cs : List Char) (ts : List Token), tokenizeLine fuel cs = Except.ok ts →
      ∀ t ∈ ts, plainTok t := by
  induction fuel with
  | zero =>
    intro cs ts h t ht
    match cs with
    | [] =>
      simp only [tokenizeLine, Except.ok.injEq] at h
      subst h
      simp at ht
    | c :: rest => simp [tokenizeLine] at h
  | succ fuel ih =>
    intro cs ts h t ht
    match cs with
    | [] =>
      simp only [tokenizeLine, Except.ok.injEq] at h
      subst h
      simp at ht
    | c :: rest =>
      simp only [tokenizeLine] at h
      split_ifs at h with h1 h2 h3 h4 h5
      · exact ih rest ts h t ht
      · cases hx : tokenizeLine fuel (readStringBody c rest "").2 with
        | error e => rw [hx] at h; simp [Except.map] at h
        | ok ts0 =>
          rw [hx] at h
          simp only [Except.map, Except.ok.injEq] at h
          subst h
          rcases List.mem_cons.mp ht with h6 | h6
          · subst h6
            obtain ⟨s, hs⟩ := readStringBody_string c rest ""
            rw [hs]
            exact plainTok_string s
          · exact ih _ ts0 hx t h6
      · cases hx : tokenizeLine fuel (readOperation c rest).2 with
        | error e => rw [hx] at h; simp [Except.map] at h
        | ok ts0 =>
          rw [hx] at h
          simp only [Except.map, Except.ok.injEq] at h
          subst h
          rcases List.mem_cons.mp ht with h6 | h6
          · subst h6
            exact readOperation_plain c rest
          · exact ih _ ts0 hx t h6
      · cases hx : tokenizeLine fuel rest with
        | error e => rw [hx] at h; simp [Except.map] at h
        | ok ts0 =>
          rw [hx] at h
          simp only [Except.map, Except.ok.injEq] at h
          subst h
          rcases List.mem_cons.mp ht with h6 | h6
          · subst h6
            exact plainTok_char c
          · exact ih _ ts0 hx t h6
      · cases hn : readNumber (c :: rest) with
        | error e => rw [hn] at h; simp at h
        | ok pr =>
          obtain ⟨ts1, rest2⟩ := pr
          rw [hn] at h
          dsimp only at h
          cases hx : tokenizeLine fuel rest2 with
          | error e => rw [hx] at h; simp [Except.map] at h
          | ok ts0 =>
            rw [hx] at h
            simp only [Except.map, Except.ok.injEq] at h
            subst h
            rcases List.mem_append.mp ht with h6 | h6
            · exact readNumber_plain _ ts1 rest2 hn t h6
            · exact ih _ ts0 hx t h6
      · cases hx : tokenizeLine fuel (readIdAux (c :: rest) "").2 with
        | error e => rw [hx] at h; simp [Except.map] at h
        | ok ts0 =>
          rw [hx] at h
          simp only [Except.map, Except.ok.injEq] at h
          subst h
          rcases List.mem_append.mp ht with h6 | h6
          · exact readIdAux_plain _ "" t h6
          · exact ih _ ts0 hx t h6

/-! ## Lexer lemmas: indentation bookkeeping -/

theorem readIndents_pair (rest : List Char) (old acc : Nat) :
    readIndents (' ' :: ' ' :: rest) old acc = readIndents rest old (acc + 1) := rfl

theorem readIndents_nil (old acc : Nat) : readIndents [] old acc = ([], old, []) := rfl

theorem readIndents_single_space (old acc : Nat) :
    readIndents [' '] old acc = ([], old, []) := rfl

theorem readIndents_odd_cons (c : Char) (h : c ≠ ' ') (rest : List Char) (old acc : Nat) :
    readIndents (' ' :: c :: rest) old acc = ([], old, c :: rest) := by
  rw [readIndents.eq_def]
  simp [h]

theorem readIndents_nonspace (c : Char) (h : c ≠ ' ') (rest : List Char) (old acc : Nat) :
    readIndents (c :: rest) old acc
      = ((emitIndents acc old).1, (emitIndents acc old).2, c :: rest) := by
  rw [readIndents.eq_def]
  simp [h]

theorem emitIndents_count (indent old : Nat) :
    old + ((emitIndents indent old).1.count Token.indent)
      = (emitIndents indent old).2 + ((emitIndents indent old).1.count Token.dedent)
    ∧ (emitIndents indent old).1.count Token.eof = 0 := by
  have hdi : ∀ n, (List.replicate n Token.indent).count Token.dedent = 0 :=
    fun n => List.count_eq_zero.mpr (by simp [List.mem_replicate])
  have hei : ∀ n, (List.replicate n Token.indent).count Token.eof = 0 :=
    fun n => List.count_eq_zero.mpr (by simp [List.mem_replicate])
  have hid : ∀ n, (List.replicate n Token.dedent).count Token.indent = 0 :=
    fun n => List.count_eq_zero.mpr (by simp [List.mem_replicate])
  have hed : ∀ n, (List.replicate n Token.dedent).count Token.eof = 0 :=
    fun n => List.count_eq_zero.mpr (by simp [List.mem_replicate])
  unfold emitIndents
  split_ifs with h1 h2
  · refine ⟨?_, hei _⟩
    rw [List.count_replicate_self, hdi]
    omega
  · refine ⟨?_, hed _⟩
    rw [List.count_replicate_self, hid]
    omega
  · exact ⟨by simp, by simp⟩

theorem readIndents_count (cs : List Char) (old acc : Nat) :
    old + ((readIndents cs old acc).1.count Token.indent)
      = (readIndents cs old acc).2.1 + ((readIndents cs old acc).1.count Token.dedent)
    ∧ (readIndents cs old acc).1.count Token.eof = 0 := by
  induction cs, old, acc using readIndents.induct with
  | case1 rest old acc ih => rw [readIndents_pair]; exact ih
  | case2 rest old acc hg =>
    match rest with
    | [] => rw [readIndents_single_space]; exact ⟨by simp, by simp⟩
    | c :: rest2 =>
      have hc : c ≠ ' ' := fun he => hg rest2 (by rw [he])
      rw [readIndents_odd_cons c hc]
      exact ⟨by simp, by simp⟩
  | case3 old acc => rw [readIndents_nil]; exact ⟨by simp, by simp⟩
  | case4 cs old acc h1 h2 h3 =>
    match cs with
    | [] => exact absurd rfl h3
    | c :: rest =>
      have hc : c ≠ ' ' := fun he => h2 rest (by rw [he])
      rw [readIndents_nonspace c hc]
      exact emitIndents_count acc old

theorem readIndents_spaces : ∀ (k old acc : Nat),
    readIndents (List.replicate k ' ') old acc = ([], old, []) := by
  intro k
  induction k using Nat.strong_induction_on with
  | _ k ih =>
    match k with
    | 0 => intro old acc; rfl
    | 1 => intro old acc; rfl
    | k + 2 =>
      intro old acc
      have h2 : List.replicate (k + 2) ' ' = ' ' :: ' ' :: List.replicate k ' ' := by
        simp [List.replicate_succ]
      rw [h2, readIndents_pair]
      exact ih k (by omega) old (acc + 1)

theorem lexLine_inv (line : List Char) (acc : List Token) (old : Nat)
    (acc2 : List Token) (old2 : Nat)
    (h : lexLine line acc old = Except.ok (acc2, old2)) (hinv : TokInv acc old) :
    TokInv acc2 old2 := by
  unfold lexLine at h
  dsimp only at h
  split_ifs at h with h1
  · injection h with h2
    injection h2 with h3 h4
    subst h3
    subst h4
    exact hinv
  · cases hx : tokenizeLine ((readIndents line old 0).2.2.length + 1)
        (readIndents line old 0).2.2 with
    | error e => rw [hx] at h; exact Except.noConfusion h
    | ok lineToks =>
      rw [hx] at h
      dsimp only at h
      have hplain := tokenizeLine_plain _ _ _ hx
      have hI : lineToks.count Token.indent = 0 :=
        List.count_eq_zero.mpr (fun hm => ((hplain _ hm).1) rfl)
      have hD : lineToks.count Token.dedent = 0 :=
        List.count_eq_zero.mpr (fun hm => ((hplain _ hm).2.1) rfl)
      have hE : lineToks.count Token.eof = 0 :=
        List.count_eq_zero.mpr (fun hm => ((hplain _ hm).2.2) rfl)
      obtain ⟨hc, hd⟩ := readIndents_count line old 0
      obtain ⟨ha, hb⟩ := hinv
      injection h with h2
      injection h2 with h3 h4
      subst h3
      subst h4
      have hnI : ([Token.newline] : List Token).count Token.indent = 0 := by decide
      have hnD : ([Token.newline] : List Token).count Token.dedent = 0 := by decide
      have hnE : ([Token.newline] : List Token).count Token.eof = 0 := by decide
      constructor
      · split_ifs with h5 <;>
          (simp only [List.count_append, hI, hD, hE, hnI, hnD, Nat.add_zero]; omega)
      · split_ifs with h5 <;>
          simp [List.count_append, hE, hnE, hb, hd]

theorem lexLinesAux_inv : ∀ (lines : List (List Char)) (acc : List Token) (old : Nat)
    (acc2 : List Token) (old2 : Nat),
    lexLinesAux lines acc old = Except.ok (acc2, old2) → TokInv acc old → TokInv acc2 old2 := by
  intro lines
  induction lines with
  | nil =>
    intro acc old acc2 old2 h hinv
    simp only [lexLinesAux] at h
    injection h with h2
    injection h2 with h3 h4
    subst h3
    subst h4
    exact hinv
  | cons l ls ih =>
    intro acc old acc2 old2 h hinv
    simp only [lexLinesAux] at h
    cases hx : lexLine l acc old with
    | error e => rw [hx] at h; exact Except.noConfusion h
    | ok pr =>
      obtain ⟨accm, oldm⟩ := pr
      rw [hx] at h
      dsimp only at h
      exact ih accm oldm acc2 old2 h (lexLine_inv l acc old accm oldm hx hinv)

/-! ## Claim theorems for the lexer -/

/-- C8: for every input, when the lexer produces a token sequence, that
sequence ends with exactly one Eof token, and the number of Dedent tokens in
the stream equals the number of Indent tokens (the flush at end of input
brings the indent counter to zero). -/
theorem c8_token_stream_invariants (lines : List (List Char)) (toks : List Token)
    (h : lexLines lines = Except.ok toks) :
    toks.count Token.eof = 1 ∧ toks.getLast? = some Token.eof ∧
    toks.count Token.indent = toks.count Token.dedent := by
  unfold lexLines at h
  cases hx : lexLinesAux lines [] 0 with
  | error e => rw [hx] at h; exact Except.noConfusion h
  | ok pr =>
    obtain ⟨acc, old⟩ := pr
    rw [hx] at h
    dsimp only at h
    injection h with h2
    subst h2
    obtain ⟨h1, h2⟩ := lexLinesAux_inv lines [] 0 acc old hx ⟨by simp, by simp⟩
    have hde : (List.replicate old Token.dedent).count Token.eof = 0 :=
      List.count_eq_zero.mpr (by simp [List.mem_replicate])
    have hdi : (List.replicate old Token.dedent).count Token.indent = 0 :=
      List.count_eq_zero.mpr (by simp [List.mem_replicate])
    refine ⟨?_, ?_, ?_⟩
    · simp [List.count_append, h2, hde]
    · simp [List.getLast?_append]
    · simp only [List.count_append, hdi, List.count_replicate_self]
      have hci : ([Token.eof] : List Token).count Token.indent = 0 := by decide
      have hcd : ([Token.eof] : List Token).count Token.dedent = 0 := by decide
      rw [hci, hcd]
      omega

/-- C8 witness: the stream of a one-line input satisfies the invariants. -/
theorem c8_witness :
    [Token.id "x", Token.newline, Token.eof].count Token.eof = 1 ∧
    [Token.id "x", Token.newline, Token.eof].getLast? = some Token.eof ∧
    [Token.id "x", Token.newline, Token.eof].count Token.indent
      = [Token.id "x", Token.newline, Token.eof].count Token.dedent :=
  c8_token_stream_invariants [['x']] [Token.id "x", Token.newline, Token.eof] rfl

/-- C6 counterexample: a line with three leading spaces following a line at
indentation level zero. The claim predicts one Indent token (one complete
pair, trailing odd space ignored); the lexer emits none, because ReadIndents
returns early on the odd space without reaching its emitting comparison. -/
theorem c6_counterexample :
    lexLines [['i', 'f'], [' ', ' ', ' ', 'x']]
      = Except.ok [Token.kwIf, Token.newline, Token.id "x", Token.newline, Token.eof] ∧
    [Token.kwIf, Token.newline, Token.id "x", Token.newline, Token.eof].count Token.indent
      = 0 := ⟨rfl, by decide⟩

/-- C6 amended: on a line whose leading-space run has odd length, ReadIndents
emits no Indent or Dedent token at all and leaves the stored indentation
level unchanged; the complete leading pairs are consumed but discarded. -/
theorem c6_odd_space_run_discarded (k : Nat) (c : Char) (rest : List Char)
    (h : c ≠ ' ') : ∀ (old acc : Nat),
    readIndents (List.replicate (2 * k + 1) ' ' ++ c :: rest) old acc
      = ([], old, c :: rest) := by
  induction k with
  | zero =>
    intro old acc
    have h1 : List.replicate (2 * 0 + 1) ' ' ++ c :: rest = ' ' :: c :: rest := by simp
    rw [h1, readIndents_odd_cons c h]
  | succ k ih =>
    intro old acc
    have h1 : List.replicate (2 * (k + 1) + 1) ' ' ++ c :: rest
        = ' ' :: ' ' :: (List.replicate (2 * k + 1) ' ' ++ c :: rest) := by
      have h2 : 2 * (k + 1) + 1 = (2 * k + 1) + 2 := by omega
      simp [h2, List.replicate_succ]
    rw [h1, readIndents_pair]
    exact ih old (acc + 1)

/-- C6 witness: three leading spaces before a token, at stored level zero. -/
theorem c6_witness :
    ('x' : Char) ≠ ' ' ∧ readIndents [' ', ' ', ' ', 'x'] 0 0 = ([], 0, ['x']) := by
  refine ⟨by decide, ?_⟩
  have h := c6_odd_space_run_discarded 1 'x' [] (by decide) 0 0
  simpa [List.replicate] using h

/-- C7 counterexample: a whitespace-only line after a token-bearing line.
The claim predicts the whitespace-only line contributes no tokens, so the two
inputs below would lex to the same stream; the lexer appends a Newline for
the whitespace-only line because the global token buffer is non-empty. -/
theorem c7_counterexample :
    lexLines [['x'], [' ']]
      = Except.ok [Token.id "x", Token.newline, Token.newline, Token.eof] ∧
    lexLines [['x']] = Except.ok [Token.id "x", Token.newline, Token.eof] := ⟨rfl, rfl⟩

/-- C7 amended: a whitespace-only line emits no Indent, Dedent or in-line
token and leaves the indentation level unchanged, but it appends a Newline
exactly when the token buffer accumulated from earlier lines is non-empty:
the source tests the whole buffer member, not the tokens of the current
line. -/
theorem c7_whitespace_line (k : Nat) (acc : List Token) (old : Nat) :
    lexLine (List.replicate (k + 1) ' ') acc old =
      Except.ok ((if acc.isEmpty then acc else acc ++ [Token.newline]), old) := by
  unfold lexLine
  dsimp only
  have hrep : List.replicate (k + 1) ' ' = ' ' :: List.replicate k ' ' := by
    simp [List.replicate_succ]
  have hcond : ((List.replicate (k + 1) ' ').isEmpty
      || decide ((List.replicate (k + 1) ' ').head? = some '#')) = false := by
    rw [hrep]
    simp
  rw [if_neg (by rw [hcond]; exact Bool.false_ne_true)]
  rw [readIndents_spaces (k + 1) old 0]
  rw [show tokenizeLine ((([] : List Char)).length + 1) [] = Except.ok [] from rfl]
  simp

end Mython
namespace Mython

/-- C1: the claim states that a method executing Return(expr) yields the
value of expr with its runtime type preserved. In the source, Return raises
the printed text of the value and MethodBody wraps the caught text into a
String: returning the number five yields the String of the digit five, both
directly and when the Return sits under Compound and IfElse (which propagate
the signal without catching, skipping the rest of the body). -/
theorem c1_return_yields_printed_text :
    exec [] 9 (Stmt.methodBody (Stmt.returnStmt (Stmt.numericConst 5)))
        (ClosRef.scope 0) st0 = Res.ok (some (Value.vstr "5")) st0 ∧
    exec [] 9 (Stmt.methodBody (Stmt.compound
        [Stmt.ifElse (Stmt.boolConst true) (Stmt.returnStmt (Stmt.numericConst 5))
          Option.none,
         Stmt.returnStmt (Stmt.numericConst 7)]))
        (ClosRef.scope 0) st0 = Res.ok (some (Value.vstr "5")) st0 ∧
    (some (Value.vstr "5") : OH) ≠ some (Value.vnum 5) :=
  ⟨by decide, by decide, by decide⟩

/-- C2: the claim states that a true runtime error raised inside a method
body re-raises out of MethodBody. In the source, division by zero does raise
an error that propagates out of Div, but MethodBody catches every exception
and converts it into a normal String return value carrying the what() text. -/
theorem c2_methodBody_swallows_runtime_error :
    exec [] 9 (Stmt.div (Stmt.numericConst 1) (Stmt.numericConst 0)) (ClosRef.scope 0) st0
      = Res.exn "Div by 0" st0 ∧
    exec [] 9 (Stmt.methodBody (Stmt.div (Stmt.numericConst 1) (Stmt.numericConst 0)))
        (ClosRef.scope 0) st0 = Res.ok (some (Value.vstr "Div by 0")) st0 :=
  ⟨by decide, by decide⟩

/-- C3: the claim states every execution of a NewInstance statement
constructs a fresh instance, so two executions return distinct instances.
In the source, the node owns a single ClassInstance member built at node
construction; executing the same node twice returns two shared handles to
that one member, and the heap gains no instance. -/
theorem c3_newInstance_returns_same_instance :
    exec ctC 9 progC (ClosRef.scope 0) stC
      = Res.ok Option.none
          { insts := [{ cls := 0, fields := mkInstanceFields 0 }],
            scopes := [[("a", some (Value.vinst 0)), ("b", some (Value.vinst 0))]],
            output := "" } := by decide

/-- C5 counterexample: the claim states that a value printing as the empty
string makes Stringify return an empty String. In the source the empty
buffer case falls into the stream insertion of the raw object pointer, so
the returned String is the non-empty address text instead. -/
theorem c5_counterexample :
    exec [] 9 (Stmt.stringify (Stmt.stringConst "")) (ClosRef.scope 0) st0
      = Res.ok (some (Value.vstr ptrText)) st0 ∧ ptrText ≠ "" :=
  ⟨by decide, by decide⟩

/-- C5 amended: Stringify evaluates its argument; an absent result yields
the String None; otherwise the result is printed, and the returned String is
that text when it is non-empty, and the pointer rendering (never empty) when
the printed form is empty. -/
theorem c5_stringify_behaviour (ct : ClassTable) (fuel : Nat) (arg : Stmt) (ρ : ClosRef)
    (st st2 : EvalState) :
    (exec ct fuel arg ρ st = Res.ok Option.none st2 →
      exec ct (fuel + 1) (Stmt.stringify arg) ρ st
        = Res.ok (some (Value.vstr "None")) st2) ∧
    (∀ (x : Value) (t : String) (st3 : EvalState),
      exec ct fuel arg ρ st = Res.ok (some x) st2 →
      printVal ct fuel x st2 = Res.ok t st3 →
      exec ct (fuel + 1) (Stmt.stringify arg) ρ st
        = Res.ok (some (Value.vstr (if t = "" then ptrText else t))) st3) := by
  constructor
  · intro h
    simp only [exec, h]
  · intro x t st3 h1 h2
    simp only [exec, h1, h2]
    split_ifs with h3 <;> rfl

/-- C5 witness: the None case and a non-empty printed form. -/
theorem c5_witness :
    exec [] 6 (Stmt.stringify Stmt.noneConst) (ClosRef.scope 0) st0
      = Res.ok (some (Value.vstr "None")) st0 ∧
    exec [] 6 (Stmt.stringify (Stmt.stringConst "ab")) (ClosRef.scope 0) st0
      = Res.ok (some (Value.vstr "ab")) st0 := by
  constructor
  · exact (c5_stringify_behaviour [] 5 Stmt.noneConst (ClosRef.scope 0) st0 st0).1 (by decide)
  · have h := (c5_stringify_behaviour [] 5 (Stmt.stringConst "ab") (ClosRef.scope 0) st0 st0).2
      (Value.vstr "ab") "ab" st0 (by decide) (by decide)
    simpa using h

/-- C9: wherever the primitive comparisons succeed as pure predicates (they
return without changing the state, as every non-instance comparison does),
the derived comparators satisfy NotEqual = not Equal, Greater = not Less and
not Equal, LessOrEqual = Less or Equal, GreaterOrEqual = not Less. -/
theorem c9_derived_comparators (ct : ClassTable) (fuel : Nat) (l r : OH) (st : EvalState)
    (be bl : Bool)
    (he : equalV ct fuel l r st = Res.ok be st)
    (hl : lessV ct fuel l r st = Res.ok bl st) :
    notEqualV ct (fuel + 1) l r st = Res.ok (!be) st ∧
    greaterV ct (fuel + 1) l r st = Res.ok (!bl && !be) st ∧
    lessOrEqualV ct (fuel + 1) l r st = Res.ok (bl || be) st ∧
    greaterOrEqualV ct (fuel + 1) l r st = Res.ok (!bl) st := by
  refine ⟨?_, ?_, ?_, ?_⟩
  · simp only [notEqualV, he]
  · simp only [greaterV, hl]
    cases bl <;> simp [he]
  · simp only [lessOrEqualV, hl]
    cases bl <;> simp [he]
  · simp only [greaterOrEqualV, hl]
    cases bl <;> simp

/-- C9 witness: the derived comparators on the numbers three and five. -/
theorem c9_witness :
    notEqualV [] 2 (some (Value.vnum 3)) (some (Value.vnum 5)) st0 = Res.ok true st0 ∧
    greaterV [] 2 (some (Value.vnum 3)) (some (Value.vnum 5)) st0 = Res.ok false st0 ∧
    lessOrEqualV [] 2 (some (Value.vnum 3)) (some (Value.vnum 5)) st0 = Res.ok true st0 ∧
    greaterOrEqualV [] 2 (some (Value.vnum 3)) (some (Value.vnum 5)) st0
      = Res.ok false st0 := by
  have h := c9_derived_comparators [] 1 (some (Value.vnum 3)) (some (Value.vnum 5)) st0
    false true (by decide) (by decide)
  simpa using h

/-- C10: when a class (or an ancestor) defines a user __str__, printing an
instance executes the __str__ body directly with the instance's own field
store as the closure reference: no fresh closure is built, no
formal-parameter-count check happens (the method may declare any number of
formals), the fields are the local variables of the body, and writes made by
the body through that reference land in the instance's field store. The
normal Call dispatch instead rejects any argument-count mismatch. -/
theorem c10_print_runs_str_on_fields (ct : ClassTable) (fuel a : Nat) (st : EvalState)
    (inst : Inst) (m : Method) (args : List OH)
    (hi : st.insts[a]? = some inst)
    (hm : getMethod ct inst.cls "__str__" = some m)
    (hargs : args.length ≠ m.formal_params.length) :
    printVal ct (fuel + 1) (Value.vinst a) st =
      (match exec ct fuel m.body (ClosRef.fieldsOf a) st with
       | Res.ok (some rv) st2 => printVal ct fuel rv st2
       | Res.ok Option.none _ => Res.crash
       | Res.exn msg st2 => Res.exn msg st2
       | Res.crash => Res.crash
       | Res.spin => Res.spin) ∧
    callMethod ct (fuel + 1) a "__str__" args st = Res.exn "Not implemented" st := by
  constructor
  · simp only [printVal, hi, hm]
    cases hx : exec ct fuel m.body (ClosRef.fieldsOf a) st with
    | ok v st2 => cases v <;> rfl
    | exn msg st2 => rfl
    | crash => rfl
    | spin => rfl
  · simp only [callMethod, hi, hm]
    rw [if_neg hargs]

/-- C10 witness: a two-formal __str__ invoked by printing with no argument
check, reading the field greeting as a local and persisting a write of the
field marker; Call with an empty argument vector is rejected. -/
theorem c10_witness :
    printVal ctG 9 (Value.vinst 0) stG
      = Res.ok "hi"
          { insts := [{ cls := 0, fields :=
              [("self", some (Value.vinst 0)), ("greeting", some (Value.vstr "hi")),
               ("marker", some (Value.vnum 7))] }],
            scopes := [[]], output := "" } ∧
    callMethod ctG 9 0 "__str__" [] stG = Res.exn "Not implemented" stG := by
  have h := c10_print_runs_str_on_fields ctG 8 0 stG iG mStr [] rfl rfl (by decide)
  refine ⟨?_, h.2⟩
  rw [h.1]
  decide

end Mython
namespace Mython

/-! ## Lemmas for the self-binding invariant -/

theorem closGet_closSet_ne (c : Closure) (k k2 : String) (v : OH) (h : k ≠ k2) :
    closGet (closSet c k v) k2 = closGet c k2 := by
  induction c with
  | nil =>
    simp only [closSet, closGet, List.find?]
    have : (decide (k = k2)) = false := by simp [h]
    simp [this]
  | cons p rest ih =>
    simp only [closSet]
    split_ifs with h1
    · simp only [closGet, List.find?]
      have hk : (decide (k = k2)) = false := by simp [h]
      have hp : (decide (p.1 = k2)) = (decide (k = k2)) := by rw [h1]
      simp [hk, hp.trans hk]
    · simp only [closGet, List.find?]
      cases hd : decide (p.1 = k2) with
      | true => rfl
      | false => exact ih

theorem selfInv_setField (st : EvalState) (a : Nat) (k : String) (v : OH)
    (hk : k ≠ "self") (h : selfInv st) : selfInv (setField st a k v) := by
  unfold setField
  cases hi : st.insts[a]? with
  | none => exact h
  | some i =>
    intro b j hb
    rw [List.getElem?_set] at hb
    by_cases h1 : a = b
    · subst h1
      by_cases h2 : a < st.insts.length
      · rw [if_pos rfl, if_pos h2] at hb
        injection hb with hb2
        subst hb2
        have h3 := h a i hi
        show closGet (closSet i.fields k v) "self" = some (some (Value.vinst a))
        rw [closGet_closSet_ne i.fields k "self" v hk]
        exact h3
      · rw [if_pos rfl, if_neg h2] at hb
        exact Option.noConfusion hb
    · rw [if_neg h1] at hb
      exact h b j hb

theorem selfInv_refSet (st : EvalState) (ρ : ClosRef) (k : String) (v : OH)
    (hk : k ≠ "self") (h : selfInv st) : selfInv (refSet st ρ k v) := by
  cases ρ with
  | scope i =>
    simp only [refSet]
    cases hs : st.scopes[i]? with
    | none => exact h
    | some c => exact h
  | fieldsOf a =>
    simp only [refSet]
    exact selfInv_setField st a k v hk h

theorem selfInv_varChain (st : EvalState) (h : selfInv st) :
    ∀ (ns : List String) (obj : OH), resInv (varChain st ns obj) := by
  intro ns
  induction ns with
  | nil =>
    intro obj
    cases obj with
    | none => exact trivial
    | some v => exact h
  | cons n ns ih =>
    intro obj
    cases obj with
    | none => exact trivial
    | some v =>
      cases v with
      | vinst a =>
        simp only [varChain]
        cases hx : st.insts[a]? with
        | none => exact trivial
        | some inst =>
          dsimp only
          cases hg : closGet inst.fields n with
          | none => exact h
          | some v2 => exact ih v2
      | vnum n2 => exact trivial
      | vstr s => exact trivial
      | vbool b => exact trivial
      | vclass c => exact trivial

theorem tableOK_class (ct : ClassTable) (h : tableOK ct = true) (c : Nat) (cd : ClassD)
    (hc : ct[c]? = some cd) : classOK cd = true :=
  (List.all_eq_true.mp h) cd (List.getElem?_mem hc)

theorem classOK_name (cd : ClassD) (h : classOK cd = true) : cd.name ≠ "self" := by
  unfold classOK at h
  rw [Bool.and_eq_true] at h
  exact bne_iff_ne.mp h.1

theorem getMethodF_body (ct : ClassTable) (hct : tableOK ct = true) :
    ∀ (fuel ci : Nat) (name : String) (m : Method),
      getMethodF ct fuel ci name = some m → noSelfWrite m.body = true := by
  intro fuel
  induction fuel with
  | zero => intro ci name m h; exact Option.noConfusion h
  | succ fuel ih =>
    intro ci name m h
    simp only [getMethodF] at h
    cases hc : ct[ci]? with
    | none => rw [hc] at h; exact Option.noConfusion h
    | some cd =>
      rw [hc] at h
      dsimp only at h
      have hcd := tableOK_class ct hct ci cd hc
      unfold classOK at hcd
      rw [Bool.and_eq_true] at hcd
      cases hf : findMethod cd.methods name with
      | some m2 =>
        rw [hf] at h
        injection h with h2
        have hmem := List.mem_of_find?_eq_some hf
        rw [h2] at hmem
        exact (List.all_eq_true.mp hcd.2) m hmem
      | none =>
        rw [hf] at h
        dsimp only at h
        cases hp : cd.parent with
        | none => rw [hp] at h; exact Option.noConfusion h
        | some p =>
          rw [hp] at h
          dsimp only at h
          split_ifs at h with hlt
          exact ih p name m h

theorem getMethod_body (ct : ClassTable) (hct : tableOK ct = true) (ci : Nat)
    (name : String) (m : Method) (h : getMethod ct ci name = some m) :
    noSelfWrite m.body = true :=
  getMethodF_body ct hct (ci + 1) ci name m h

end Mython
namespace Mython

theorem resInv_of_ok {α : Type} {x : Res α} {v : α} {st : EvalState}
    (hx : x = Res.ok v st) (h : resInv x) : selfInv st := by
  rw [hx] at h
  exact h

theorem resInv_of_exn {α : Type} {x : Res α} {m : String} {st : EvalState}
    (hx : x = Res.exn m st) (h : resInv x) : selfInv st := by
  rw [hx] at h
  exact h

/-- The self invariant is preserved by every function of the evaluator at
every fuel, for programs and class tables that never write the name self. -/
theorem selfInv_eval_all (ct : ClassTable) (hct : tableOK ct = true) : ∀ (fuel : Nat),
    (∀ s ρ st, noSelfWrite s = true → selfInv st → resInv (exec ct fuel s ρ st)) ∧
    (∀ ss ρ st, noSelfWriteL ss = true → selfInv st → resInv (execArgs ct fuel ss ρ st)) ∧
    (∀ ss ρ st, noSelfWriteL ss = true → selfInv st → resInv (execSeq ct fuel ss ρ st)) ∧
    (∀ ss ρ st, noSelfWriteL ss = true → selfInv st → resInv (printArgsLoop ct fuel ss ρ st)) ∧
    (∀ a mname avs st, selfInv st → resInv (callMethod ct fuel a mname avs st)) ∧
    (∀ v st, selfInv st → resInv (printVal ct fuel v st)) ∧
    (∀ l r st, selfInv st → resInv (equalV ct fuel l r st)) ∧
    (∀ l r st, selfInv st → resInv (lessV ct fuel l r st)) ∧
    (∀ l r st, selfInv st → resInv (notEqualV ct fuel l r st)) ∧
    (∀ l r st, selfInv st → resInv (greaterV ct fuel l r st)) ∧
    (∀ l r st, selfInv st → resInv (lessOrEqualV ct fuel l r st)) ∧
    (∀ l r st, selfInv st → resInv (greaterOrEqualV ct fuel l r st)) ∧
    (∀ c l r st, selfInv st → resInv (compareVals ct fuel c l r st)) := by
  intro fuel
  induction fuel with
  | zero =>
    refine ⟨?_, ?_, ?_, ?_, ?_, ?_, ?_, ?_, ?_, ?_, ?_, ?_, ?_⟩ <;> (intros; exact trivial)
  | succ fuel ih =>
    obtain ⟨ihE, ihA, ihS, ihP, ihC, ihV, ihEq, ihLt, ihNe, ihGt, ihLe, ihGe, ihCmp⟩ := ih
    refine ⟨?_, ?_, ?_, ?_, ?_, ?_, ?_, ?_, ?_, ?_, ?_, ?_, ?_⟩
    · -- exec
      intro s ρ st hs hst
      cases s with
      | numericConst v => exact hst
      | stringConst v => exact hst
      | boolConst v => exact hst
      | noneConst => exact hst
      | variableValue names =>
        simp only [exec]
        cases names with
        | nil => exact trivial
        | cons n0 rest =>
          dsimp only
          cases hg : refGet st ρ n0 with
          | none => exact hst
          | some obj => exact selfInv_varChain st hst rest obj
      | assignment name rv =>
        simp only [noSelfWrite, Bool.and_eq_true, bne_iff_ne] at hs
        obtain ⟨hname, hrv⟩ := hs
        simp only [exec]
        cases hx : exec ct fuel rv ρ st with
        | ok v st2 => exact selfInv_refSet st2 ρ name v hname (resInv_of_ok hx (ihE rv ρ st hrv hst))
        | exn m s2 => exact resInv_of_exn hx (ihE rv ρ st hrv hst)
        | crash => exact trivial
        | spin => exact trivial
      | fieldAssignment objNames field rv =>
        simp only [noSelfWrite, Bool.and_eq_true, bne_iff_ne] at hs
        obtain ⟨hfield, hrv⟩ := hs
        simp only [exec]
        cases hx : exec ct fuel rv ρ st with
        | ok v st2 =>
          have h2 : selfInv st2 := resInv_of_ok hx (ihE rv ρ st hrv hst)
          dsimp only
          cases hy : exec ct fuel (Stmt.variableValue objNames) ρ st2 with
          | ok o st3 =>
            have h3 : selfInv st3 := resInv_of_ok hy (ihE _ ρ st2 rfl h2)
            dsimp only
            cases o with
            | none => exact trivial
            | some vv =>
              cases vv with
              | vinst a => exact selfInv_setField st3 a field v hfield h3
              | vnum n => exact trivial
              | vstr s2 => exact trivial
              | vbool b => exact trivial
              | vclass c => exact trivial
          | exn m s3 => exact resInv_of_exn hy (ihE _ ρ st2 rfl h2)
          | crash => exact trivial
          | spin => exact trivial
        | exn m s2 => exact resInv_of_exn hx (ihE rv ρ st hrv hst)
        | crash => exact trivial
        | spin => exact trivial
      | printStmt name args =>
        simp only [noSelfWrite] at hs
        simp only [exec]
        split_ifs with hn he
        · exact hst
        · cases hp : printArgsLoop ct fuel args ρ st with
          | ok u st2 => exact resInv_of_ok hp (ihP args ρ st hs hst)
          | exn m s2 => exact resInv_of_exn hp (ihP args ρ st hs hst)
          | crash => exact trivial
          | spin => exact trivial
        · cases hg : refGet st ρ name with
          | none => exact hst
          | some obj =>
            dsimp only
            cases obj with
            | none => exact trivial
            | some v =>
              dsimp only
              cases hv : printVal ct fuel v st with
              | ok t st2 =>
                have h2 : selfInv st2 := resInv_of_ok hv (ihV v st hst)
                exact h2
              | exn m s2 => exact resInv_of_exn hv (ihV v st hst)
              | crash => exact trivial
              | spin => exact trivial
      | stringify arg =>
        simp only [noSelfWrite] at hs
        simp only [exec]
        cases hx : exec ct fuel arg ρ st with
        | ok v st2 =>
          have h2 : selfInv st2 := resInv_of_ok hx (ihE arg ρ st hs hst)
          dsimp only
          cases v with
          | none => exact h2
          | some x =>
            dsimp only
            cases hv : printVal ct fuel x st2 with
            | ok t st3 =>
              have h3 : selfInv st3 := resInv_of_ok hv (ihV x st2 h2)
              dsimp only
              split_ifs with ht
              · exact h3
              · exact h3
            | exn m s3 => exact resInv_of_exn hv (ihV x st2 h2)
            | crash => exact trivial
            | spin => exact trivial
        | exn m s2 => exact resInv_of_exn hx (ihE arg ρ st hs hst)
        | crash => exact trivial
        | spin => exact trivial
      | add l r =>
        simp only [noSelfWrite, Bool.and_eq_true] at hs
        obtain ⟨hl, hr⟩ := hs
        simp only [exec]
        cases hx : exec ct fuel l ρ st with
        | ok lv st2 =>
          have h2 : selfInv st2 := resInv_of_ok hx (ihE l ρ st hl hst)
          dsimp only
          cases hy : exec ct fuel r ρ st2 with
          | ok rv st3 =>
            have h3 : selfInv st3 := resInv_of_ok hy (ihE r ρ st2 hr h2)
            dsimp only
            split
            · exact h3
            · exact h3
            · split_ifs with hmeth
              · exact ihC _ _ _ _ h3
              · exact h3
            · exact h3
          | exn m s3 => exact resInv_of_exn hy (ihE r ρ st2 hr h2)
          | crash => exact trivial
          | spin => exact trivial
        | exn m s2 => exact resInv_of_exn hx (ihE l ρ st hl hst)
        | crash => exact trivial
        | spin => exact trivial
      | sub l r =>
        simp only [noSelfWrite, Bool.and_eq_true] at hs
        obtain ⟨hl, hr⟩ := hs
        simp only [exec]
        cases hx : exec ct fuel l ρ st with
        | ok lv st2 =>
          have h2 : selfInv st2 := resInv_of_ok hx (ihE l ρ st hl hst)
          dsimp only
          cases hy : exec ct fuel r ρ st2 with
          | ok rv st3 =>
            have h3 : selfInv st3 := resInv_of_ok hy (ihE r ρ st2 hr h2)
            dsimp only
            split
            · exact h3
            · exact h3
          | exn m s3 => exact resInv_of_exn hy (ihE r ρ st2 hr h2)
          | crash => exact trivial
          | spin => exact trivial
        | exn m s2 => exact resInv_of_exn hx (ihE l ρ st hl hst)
        | crash => exact trivial
        | spin => exact trivial
      | mult l r =>
        simp only [noSelfWrite, Bool.and_eq_true] at hs
        obtain ⟨hl, hr⟩ := hs
        simp only [exec]
        cases hx : exec ct fuel l ρ st with
        | ok lv st2 =>
          have h2 : selfInv st2 := resInv_of_ok hx (ihE l ρ st hl hst)
          dsimp only
          cases hy : exec ct fuel r ρ st2 with
          | ok rv st3 =>
            have h3 : selfInv st3 := resInv_of_ok hy (ihE r ρ st2 hr h2)
            dsimp only
            split
            · exact h3
            · exact h3
          | exn m s3 => exact resInv_of_exn hy (ihE r ρ st2 hr h2)
          | crash => exact trivial
          | spin => exact trivial
        | exn m s2 => exact resInv_of_exn hx (ihE l ρ st hl hst)
        | crash => exact trivial
        | spin => exact trivial
      | div l r =>
        simp only [noSelfWrite, Bool.and_eq_true] at hs
        obtain ⟨hl, hr⟩ := hs
        simp only [exec]
        cases hx : exec ct fuel l ρ st with
        | ok lv st2 =>
          have h2 : selfInv st2 := resInv_of_ok hx (ihE l ρ st hl hst)
          dsimp only
          cases hy : exec ct fuel r ρ st2 with
          | ok rv st3 =>
            have h3 : selfInv st3 := resInv_of_ok hy (ihE r ρ st2 hr h2)
            dsimp only
            split
            · split_ifs with hz
              · exact h3
              · exact h3
            · exact h3
          | exn m s3 => exact resInv_of_exn hy (ihE r ρ st2 hr h2)
          | crash => exact trivial
          | spin => exact trivial
        | exn m s2 => exact resInv_of_exn hx (ihE l ρ st hl hst)
        | crash => exact trivial
        | spin => exact trivial
      | orStmt l r =>
        simp only [noSelfWrite, Bool.and_eq_true] at hs
        obtain ⟨hl, hr⟩ := hs
        simp only [exec]
        cases hx : exec ct fuel l ρ st with
        | ok lv st2 =>
          have h2 : selfInv st2 := resInv_of_ok hx (ihE l ρ st hl hst)
          dsimp only
          cases hy : exec ct fuel r ρ st2 with
          | ok rv st3 =>
            have h3 : selfInv st3 := resInv_of_ok hy (ihE r ρ st2 hr h2)
            dsimp only
            split
            · split_ifs with hb
              · exact h3
              · exact h3
            · exact h3
          | exn m s3 => exact resInv_of_exn hy (ihE r ρ st2 hr h2)
          | crash => exact trivial
          | spin => exact trivial
        | exn m s2 => exact resInv_of_exn hx (ihE l ρ st hl hst)
        | crash => exact trivial
        | spin => exact trivial
      | andStmt l r =>
        simp only [noSelfWrite, Bool.and_eq_true] at hs
        obtain ⟨hl, hr⟩ := hs
        simp only [exec]
        cases hx : exec ct fuel l ρ st with
        | ok lv st2 =>
          have h2 : selfInv st2 := resInv_of_ok hx (ihE l ρ st hl hst)
          dsimp only
          cases hy : exec ct fuel r ρ st2 with
          | ok rv st3 =>
            have h3 : selfInv st3 := resInv_of_ok hy (ihE r ρ st2 hr h2)
            dsimp only
            split
            · split_ifs with hb
              · exact h3
              · exact h3
            · exact h3
          | exn m s3 => exact resInv_of_exn hy (ihE r ρ st2 hr h2)
          | crash => exact trivial
          | spin => exact trivial
        | exn m s2 => exact resInv_of_exn hx (ihE l ρ st hl hst)
        | crash => exact trivial
        | spin => exact trivial
      | notStmt a =>
        simp only [noSelfWrite] at hs
        simp only [exec]
        cases hx : exec ct fuel a ρ st with
        | ok lv st2 =>
          have h2 : selfInv st2 := resInv_of_ok hx (ihE a ρ st hs hst)
          dsimp only
          split
          · split_ifs with hb
            · exact h2
            · exact h2
          · exact h2
        | exn m s2 => exact resInv_of_exn hx (ihE a ρ st hs hst)
        | crash => exact trivial
        | spin => exact trivial
      | comparison cmp l r =>
        simp only [noSelfWrite, Bool.and_eq_true] at hs
        obtain ⟨hl, hr⟩ := hs
        simp only [exec]
        cases hx : exec ct fuel l ρ st with
        | ok lv st2 =>
          have h2 : selfInv st2 := resInv_of_ok hx (ihE l ρ st hl hst)
          dsimp only
          cases hy : exec ct fuel r ρ st2 with
          | ok rv st3 =>
            have h3 : selfInv st3 := resInv_of_ok hy (ihE r ρ st2 hr h2)
            dsimp only
            cases hz : compareVals ct fuel cmp lv rv st3 with
            | ok b st4 => exact resInv_of_ok hz (ihCmp cmp lv rv st3 h3)
            | exn m s4 => exact resInv_of_exn hz (ihCmp cmp lv rv st3 h3)
            | crash => exact trivial
            | spin => exact trivial
          | exn m s3 => exact resInv_of_exn hy (ihE r ρ st2 hr h2)
          | crash => exact trivial
          | spin => exact trivial
        | exn m s2 => exact resInv_of_exn hx (ihE l ρ st hl hst)
        | crash => exact trivial
        | spin => exact trivial
      | ifElse cond tb eb =>
        simp only [noSelfWrite, Bool.and_eq_true] at hs
        obtain ⟨⟨hc, ht⟩, he⟩ := hs
        simp only [exec]
        cases hx : exec ct fuel cond ρ st with
        | ok cv st2 =>
          have h2 : selfInv st2 := resInv_of_ok hx (ihE cond ρ st hc hst)
          dsimp only
          split
          · split_ifs with hb
            · exact ihE tb ρ st2 ht h2
            · cases eb with
              | some e =>
                simp only [noSelfWriteO] at he
                exact ihE e ρ st2 he h2
              | none => exact h2
          · exact trivial
        | exn m s2 => exact resInv_of_exn hx (ihE cond ρ st hc hst)
        | crash => exact trivial
        | spin => exact trivial
      | compound ss =>
        simp only [noSelfWrite] at hs
        simp only [exec]
        exact ihS ss ρ st hs hst
      | methodCall obj mname args =>
        simp only [noSelfWrite, Bool.and_eq_true] at hs
        obtain ⟨ho, ha⟩ := hs
        simp only [exec]
        cases hx : execArgs ct fuel args ρ st with
        | ok avs st2 =>
          have h2 : selfInv st2 := resInv_of_ok hx (ihA args ρ st ha hst)
          dsimp only
          cases hy : exec ct fuel obj ρ st2 with
          | ok ov st3 =>
            have h3 : selfInv st3 := resInv_of_ok hy (ihE obj ρ st2 ho h2)
            dsimp only
            split
            · exact ihC _ _ _ _ h3
            · exact trivial
          | exn m s3 => exact resInv_of_exn hy (ihE obj ρ st2 ho h2)
          | crash => exact trivial
          | spin => exact trivial
        | exn m s2 => exact resInv_of_exn hx (ihA args ρ st ha hst)
        | crash => exact trivial
        | spin => exact trivial
      | newInstance iaddr args =>
        simp only [noSelfWrite] at hs
        simp only [exec]
        cases hx : execArgs ct fuel args ρ st with
        | ok avs st2 =>
          have h2 : selfInv st2 := resInv_of_ok hx (ihA args ρ st hs hst)
          dsimp only
          split_ifs with hinit
          · cases hy : callMethod ct fuel iaddr "__init__" avs st2 with
            | ok u st3 => exact resInv_of_ok hy (ihC iaddr "__init__" avs st2 h2)
            | exn m s3 => exact resInv_of_exn hy (ihC iaddr "__init__" avs st2 h2)
            | crash => exact trivial
            | spin => exact trivial
          · exact h2
        | exn m s2 => exact resInv_of_exn hx (ihA args ρ st hs hst)
        | crash => exact trivial
        | spin => exact trivial
      | classDefinition cls =>
        simp only [exec]
        split
        · next c =>
          cases hc2 : ct[c]? with
          | none => exact trivial
          | some cd =>
            dsimp only
            exact selfInv_refSet st ρ cd.name (some (Value.vclass c))
              (classOK_name cd (tableOK_class ct hct c cd hc2)) hst
        · exact trivial
      | methodBody body =>
        simp only [noSelfWrite] at hs
        simp only [exec]
        cases hx : exec ct fuel body ρ st with
        | ok v st2 => exact resInv_of_ok hx (ihE body ρ st hs hst)
        | exn msg st2 => exact resInv_of_exn hx (ihE body ρ st hs hst)
        | crash => exact trivial
        | spin => exact trivial
      | returnStmt s1 =>
        simp only [noSelfWrite] at hs
        simp only [exec]
        cases hx : exec ct fuel s1 ρ st with
        | ok v st2 =>
          have h2 : selfInv st2 := resInv_of_ok hx (ihE s1 ρ st hs hst)
          dsimp only
          cases v with
          | none => exact trivial
          | some x =>
            dsimp only
            cases hv : printVal ct fuel x st2 with
            | ok t st3 => exact resInv_of_ok hv (ihV x st2 h2)
            | exn m s3 => exact resInv_of_exn hv (ihV x st2 h2)
            | crash => exact trivial
            | spin => exact trivial
        | exn m s2 => exact resInv_of_exn hx (ihE s1 ρ st hs hst)
        | crash => exact trivial
        | spin => exact trivial
    · -- execArgs
      intro ss ρ st hs hst
      cases ss with
      | nil => exact hst
      | cons a rest =>
        simp only [noSelfWriteL, Bool.and_eq_true] at hs
        obtain ⟨h1, h2⟩ := hs
        simp only [execArgs]
        cases hx : exec ct fuel a ρ st with
        | ok v st2 =>
          have hv : selfInv st2 := resInv_of_ok hx (ihE a ρ st h1 hst)
          dsimp only
          cases hy : execArgs ct fuel rest ρ st2 with
          | ok vs st3 => exact resInv_of_ok hy (ihA rest ρ st2 h2 hv)
          | exn m s3 => exact resInv_of_exn hy (ihA rest ρ st2 h2 hv)
          | crash => exact trivial
          | spin => exact trivial
        | exn m s2 => exact resInv_of_exn hx (ihE a ρ st h1 hst)
        | crash => exact trivial
        | spin => exact trivial
    · -- execSeq
      intro ss ρ st hs hst
      cases ss with
      | nil => exact hst
      | cons a rest =>
        simp only [noSelfWriteL, Bool.and_eq_true] at hs
        obtain ⟨h1, h2⟩ := hs
        simp only [execSeq]
        cases hx : exec ct fuel a ρ st with
        | ok v st2 => exact ihS rest ρ st2 h2 (resInv_of_ok hx (ihE a ρ st h1 hst))
        | exn m s2 => exact resInv_of_exn hx (ihE a ρ st h1 hst)
        | crash => exact trivial
        | spin => exact trivial
    · -- printArgsLoop
      intro ss ρ st hs hst
      cases ss with
      | nil => exact hst
      | cons a rest =>
        simp only [noSelfWriteL, Bool.and_eq_true] at hs
        obtain ⟨h1, h2⟩ := hs
        simp only [printArgsLoop]
        cases hx : exec ct fuel a ρ st with
        | ok v st2 =>
          have hv : selfInv st2 := resInv_of_ok hx (ihE a ρ st h1 hst)
          dsimp only
          cases v with
          | some x =>
            dsimp only
            cases hp : printVal ct fuel x st2 with
            | ok t st3 =>
              have h3 : selfInv st3 := resInv_of_ok hp (ihV x st2 hv)
              exact ihP rest ρ _ h2 h3
            | exn m s3 => exact resInv_of_exn hp (ihV x st2 hv)
            | crash => exact trivial
            | spin => exact trivial
          | none => exact ihP rest ρ _ h2 hv
        | exn m s2 => exact resInv_of_exn hx (ihE a ρ st h1 hst)
        | crash => exact trivial
        | spin => exact trivial
    · -- callMethod
      intro a mname avs st hst
      simp only [callMethod]
      cases hi : st.insts[a]? with
      | none => exact trivial
      | some inst =>
        dsimp only
        cases hm : getMethod ct inst.cls mname with
        | none => exact hst
        | some m =>
          dsimp only
          split_ifs with hlen
          · exact ihE m.body (ClosRef.scope st.scopes.length) _
              (getMethod_body ct hct inst.cls mname m hm) hst
          · exact hst
    · -- printVal
      intro v st hst
      cases v with
      | vnum n => exact hst
      | vstr s => exact hst
      | vbool b => exact hst
      | vclass c =>
        simp only [printVal]
        cases hc : ct[c]? with
        | none => exact trivial
        | some cd => exact hst
      | vinst a =>
        simp only [printVal]
        cases hi : st.insts[a]? with
        | none => exact trivial
        | some inst =>
          dsimp only
          cases hm : getMethod ct inst.cls "__str__" with
          | none => exact hst
          | some m =>
            dsimp only
            cases hx : exec ct fuel m.body (ClosRef.fieldsOf a) st with
            | ok r st2 =>
              have h2 : selfInv st2 := resInv_of_ok hx
                (ihE m.body (ClosRef.fieldsOf a) st
                  (getMethod_body ct hct inst.cls "__str__" m hm) hst)
              dsimp only
              cases r with
              | none => exact trivial
              | some rv => exact ihV rv st2 h2
            | exn msg st2 =>
              have hb := getMethod_body ct hct inst.cls "__str__" m hm
              exact resInv_of_exn hx (ihE m.body (ClosRef.fieldsOf a) st hb hst)
            | crash => exact trivial
            | spin => exact trivial
    · -- equalV
      intro l r st hst
      simp only [equalV]
      split
      · exact hst
      · exact hst
      · exact hst
      · exact hst
      · next rv a =>
        cases hc : callMethod ct fuel a "__eq__" [r] st with
        | ok v st2 => exact resInv_of_ok hc (ihC a "__eq__" [r] st hst)
        | exn m s2 => exact resInv_of_exn hc (ihC a "__eq__" [r] st hst)
        | crash => exact trivial
        | spin => exact trivial
      · split_ifs with hab
        · exact hst
        · exact hst
      · exact hst
    · -- lessV
      intro l r st hst
      simp only [lessV]
      split
      · exact hst
      · exact hst
      · exact hst
      · next rv a =>
        cases hc : callMethod ct fuel a "__lt__" [r] st with
        | ok v st2 => exact resInv_of_ok hc (ihC a "__lt__" [r] st hst)
        | exn m s2 => exact resInv_of_exn hc (ihC a "__lt__" [r] st hst)
        | crash => exact trivial
        | spin => exact trivial
      · exact hst
    · -- notEqualV
      intro l r st hst
      simp only [notEqualV]
      cases hx : equalV ct fuel l r st with
      | ok b st2 => exact resInv_of_ok hx (ihEq l r st hst)
      | exn m s2 => exact resInv_of_exn hx (ihEq l r st hst)
      | crash => exact trivial
      | spin => exact trivial
    · -- greaterV
      intro l r st hst
      simp only [greaterV]
      cases hx : lessV ct fuel l r st with
      | ok lb st2 =>
        have h2 : selfInv st2 := resInv_of_ok hx (ihLt l r st hst)
        dsimp only
        split_ifs with hlb
        · exact h2
        · cases hy : equalV ct fuel l r st2 with
          | ok eb st3 => exact resInv_of_ok hy (ihEq l r st2 h2)
          | exn m s3 => exact resInv_of_exn hy (ihEq l r st2 h2)
          | crash => exact trivial
          | spin => exact trivial
      | exn m s2 => exact resInv_of_exn hx (ihLt l r st hst)
      | crash => exact trivial
      | spin => exact trivial
    · -- lessOrEqualV
      intro l r st hst
      simp only [lessOrEqualV]
      cases hx : lessV ct fuel l r st with
      | ok lb st2 =>
        have h2 : selfInv st2 := resInv_of_ok hx (ihLt l r st hst)
        dsimp only
        split_ifs with hlb
        · exact h2
        · exact ihEq l r st2 h2
      | exn m s2 => exact resInv_of_exn hx (ihLt l r st hst)
      | crash => exact trivial
      | spin => exact trivial
    · -- greaterOrEqualV
      intro l r st hst
      simp only [greaterOrEqualV]
      cases hx : lessV ct fuel l r st with
      | ok lb st2 =>
        have h2 : selfInv st2 := resInv_of_ok hx (ihLt l r st hst)
        dsimp only
        split_ifs with hlb
        · exact h2
        · exact h2
      | exn m s2 => exact resInv_of_exn hx (ihLt l r st hst)
      | crash => exact trivial
      | spin => exact trivial
    · -- compareVals
      intro c l r st hst
      cases c with
      | eq => exact ihEq l r st hst
      | less => exact ihLt l r st hst
      | notEq => exact ihNe l r st hst
      | greater => exact ihGt l r st hst
      | lessOrEq => exact ihLe l r st hst
      | greaterOrEq => exact ihGe l r st hst

end Mython
namespace Mython

theorem selfInv_stC : selfInv stC := by
  intro a i h
  cases a with
  | zero =>
    simp only [stC, List.getElem?_cons_zero, Option.some.injEq] at h
    subst h
    rfl
  | succ n =>
    simp only [stC, List.getElem?_cons_succ, List.getElem?_nil] at h
    exact Option.noConfusion h

/-- C4 counterexample: the claim states the self binding is preserved by
every evaluator operation, including FieldAssignment. A FieldAssignment
whose field name is self overwrites the binding: after x.self = 5 the field
store of the instance binds self to the Number five, which is no handle to
the instance, so the invariant is broken. -/
theorem c4_counterexample :
    exec [] 9 (Stmt.fieldAssignment ["x"] "self" (Stmt.numericConst 5)) (ClosRef.scope 0) stX
      = Res.ok (some (Value.vnum 5))
          (EvalState.mk [Inst.mk 0 [("self", some (Value.vnum 5))]]
            [[("x", some (Value.vinst 0))]] "") ∧
    ¬ selfInv (EvalState.mk [Inst.mk 0 [("self", some (Value.vnum 5))]]
            [[("x", some (Value.vinst 0))]] "") := by
  refine ⟨by decide, ?_⟩
  intro h
  have h2 := h 0 (Inst.mk 0 [("self", some (Value.vnum 5))]) rfl
  exact absurd h2 (by decide)

/-- C4 amended: the self binding is established at construction (the
ClassInstance constructor seeds the field store with self bound to the
instance itself) and is preserved by every evaluator operation of every
program whose statements and class table never write the name self (no
assignment to a variable self, no field assignment to a field self, no class
named self); a write to the name self, which FieldAssignment permits, can
replace the binding. -/
theorem c4_self_binding_invariant (ct : ClassTable) (fuel : Nat) (s : Stmt) (ρ : ClosRef)
    (st : EvalState) (hct : tableOK ct = true) (hs : noSelfWrite s = true)
    (hst : selfInv st) :
    (∀ a, closGet (mkInstanceFields a) "self" = some (some (Value.vinst a))) ∧
    resInv (exec ct fuel s ρ st) :=
  ⟨fun _ => rfl, ((selfInv_eval_all ct hct fuel).1) s ρ st hs hst⟩

/-- C4 witness: the construction binding and a concrete preserved run. -/
theorem c4_witness :
    (closGet (mkInstanceFields 3) "self" = some (some (Value.vinst 3))) ∧
    resInv (exec ctC 5 (Stmt.assignment "y" (Stmt.numericConst 1)) (ClosRef.scope 0) stC) := by
  have h := c4_self_binding_invariant ctC 5 (Stmt.assignment "y" (Stmt.numericConst 1))
    (ClosRef.scope 0) stC (by decide) (by decide) selfInv_stC
  exact ⟨h.1 3, h.2⟩

end Mython
